import Mathlib

/-!
ST7789 display driver (`firmware/src/st7789_lcd.c`).

A shallow embedding of the JukeBox firmware's ST7789 driver.

* The build-time macros (`JB_SCREEN_RESOLUTION_WIDTH`, `JB_SCREEN_ORIENTATION`,
  `JB_SCREEN_MIRROR_FLIP`, the pin numbers) are the fields of `Config`.
* The static `uint16_t framebuffer[SCREEN_HEIGHT][SCREEN_WIDTH]` is a map from
  (row, column) to the stored value.
* Hardware access (PIO put / wait-idle, GPIO writes, sleeps) is recorded as a
  trace of `Event`s, oldest first.
* `uint16_t` arithmetic is `Int` arithmetic reduced modulo `2^16`; a
  `for (uint16_t i = 0; i < BOUND; i++)` loop is run with a wrapping counter and
  an iteration budget, so that a bound a 16-bit counter can never reach shows
  up as a loop that does not return.
-/

namespace ST7789

/-! ## Configuration and state -/

/-- The two values `JB_SCREEN_ORIENTATION` is compared against. -/
inductive Orientation
  | portrait
  | landscape
  deriving DecidableEq, Repr

/-- Build-time configuration of the driver. -/
structure Config where
  /-- Macro `SCREEN_WIDTH` (`JB_SCREEN_RESOLUTION_WIDTH`). -/
  width : Nat
  /-- Macro `SCREEN_HEIGHT` (`JB_SCREEN_RESOLUTION_HEIGHT`). -/
  height : Nat
  /-- Macro `JB_SCREEN_ORIENTATION`. -/
  orientation : Orientation
  /-- Whether `JB_SCREEN_MIRROR_FLIP` is defined. -/
  mirrorFlip : Bool
  /-- Macro `PIN_DIN`. -/
  pinDIN : Nat
  /-- Macro `PIN_CLK`. -/
  pinCLK : Nat
  /-- Macro `PIN_CS`, the chip-select line. -/
  pinCS : Nat
  /-- Macro `PIN_DC`, the data/command-select line. -/
  pinDC : Nat
  /-- Macro `PIN_RST`, the reset line. -/
  pinRST : Nat
  /-- Macro `PIN_BL`, the backlight line. -/
  pinBL : Nat
  deriving DecidableEq, Repr

/-- One observable hardware access made by the driver. -/
inductive Event
  /-- A call `st7789_lcd_wait_idle(pio, sm)`. -/
  | waitIdle
  /-- A call `st7789_lcd_put(pio, sm, byte)`. -/
  | put (byte : Nat)
  /-- A call `sleep_us(us)`. -/
  | sleepUs (us : Nat)
  /-- A call `sleep_ms(ms)`. -/
  | sleepMs (ms : Nat)
  /-- A call `gpio_put(pin, value)`. -/
  | gpioPut (pin : Nat) (value : Bool)
  /-- A call `gpio_put_masked(mask, value)`. -/
  | gpioPutMasked (mask value : Nat)
  /-- A call `gpio_init(pin)`. -/
  | gpioInit (pin : Nat)
  /-- A call `gpio_set_dir(pin, GPIO_OUT)`. -/
  | gpioSetDirOut (pin : Nat)
  /-- A call `pio_add_program(pio, &st7789_lcd_program)`. -/
  | pioAddProgram
  /-- A call `st7789_lcd_program_init(pio, sm, offset, din, clk, SERIAL_CLK_DIV)`. -/
  | pioProgramInit (din clk : Nat)
  deriving DecidableEq, Repr

/-- The static `framebuffer[SCREEN_HEIGHT][SCREEN_WIDTH]`: row, then column. -/
abbrev Framebuffer := Nat → Nat → Nat

/-- The driver's mutable state: the framebuffer and the hardware accesses made so far. -/
structure Driver where
  framebuffer : Framebuffer
  trace : List Event

/-- The assignment `framebuffer[row][col] = value`. -/
def fb_store (fb : Framebuffer) (row col value : Nat) : Framebuffer :=
  fun r c => if r = row ∧ c = col then value else fb r c

/-- Appends one hardware access to the trace. -/
def emit (e : Event) (s : Driver) : Driver :=
  { s with trace := s.trace ++ [e] }

/-- Modelled from the spec: `wait_idle()` of the Serial Pixel Channel, declared in the
generated `st7789_lcd.pio.h`; recorded as an event. -/
def st7789_lcd_wait_idle (s : Driver) : Driver := emit .waitIdle s

/-- Modelled from the spec: `put(byte)` of the Serial Pixel Channel, declared in the
generated `st7789_lcd.pio.h`; recorded as an event. -/
def st7789_lcd_put (byte : Nat) (s : Driver) : Driver := emit (.put byte) s

/-- SDK `sleep_us`. -/
def sleep_us (us : Nat) (s : Driver) : Driver := emit (.sleepUs us) s

/-- SDK `sleep_ms`. -/
def sleep_ms (ms : Nat) (s : Driver) : Driver := emit (.sleepMs ms) s

/-- SDK `gpio_put`. -/
def gpio_put (pin : Nat) (value : Bool) (s : Driver) : Driver := emit (.gpioPut pin value) s

/-- SDK `gpio_put_masked`. -/
def gpio_put_masked (mask value : Nat) (s : Driver) : Driver :=
  emit (.gpioPutMasked mask value) s

/-- SDK `gpio_init`. -/
def gpio_init (pin : Nat) (s : Driver) : Driver := emit (.gpioInit pin) s

/-- SDK `gpio_set_dir(pin, GPIO_OUT)`. -/
def gpio_set_dir_out (pin : Nat) (s : Driver) : Driver := emit (.gpioSetDirOut pin) s

/-! ## Reading the trace -/

/-- Levels of the digital output lines, by pin number. -/
abbrev Lines := Nat → Bool

/-- Effect of one hardware access on the output lines: `gpio_put` drives one pin,
`gpio_put_masked` drives every pin whose bit is set in the mask to the matching
bit of the value; nothing else touches a line. -/
def applyEvent (l : Lines) : Event → Lines
  | .gpioPut pin v => fun p => if p = pin then v else l p
  | .gpioPutMasked mask value => fun p => if mask.testBit p then value.testBit p else l p
  | _ => l

/-- Line levels after a run of hardware accesses. -/
def linesAfter (l : Lines) (evs : List Event) : Lines := evs.foldl applyEvent l

/-- The bytes handed to the serial channel, in order. -/
def putBytes : List Event → List Nat
  | [] => []
  | .put b :: rest => b :: putBytes rest
  | _ :: rest => putBytes rest

/-- Whether an access changes the state of an output line. -/
def Event.isLineChange : Event → Bool
  | .gpioPut _ _ => true
  | .gpioPutMasked _ _ => true
  | _ => false

/-- Checks that every line-state change in the run is directly preceded and directly
followed by `sleep_us(1)`; `prev` is the access just before the run. -/
def bracketedFrom (prev : Option Event) : List Event → Bool
  | [] => true
  | e :: rest =>
    (if e.isLineChange then
        decide (prev = some (.sleepUs 1)) && decide (rest.head? = some (.sleepUs 1))
      else true)
    && bracketedFrom (some e) rest

/-! ## 16-bit arithmetic and loops -/

/-- Conversion of an `int` value to `uint16_t`. -/
def toU16 (i : Int) : Nat := (i % 65536).toNat

/-- The loop `for (uint16_t i = start; i < bound; i++) body(i)`, where `bound` is an
`int` constant. The counter wraps at `2^16`; at most `fuel` loop tests are made, and
`none` means the loop was still running when they were used up. -/
def forU16 {σ : Type} (bound : Nat) (body : Nat → σ → Option σ) : Nat → Nat → σ → Option σ
  | 0, _, _ => none
  | fuel + 1, i, s =>
    if i < bound then
      match body i s with
      | none => none
      | some s' => forU16 bound body fuel ((i + 1) % 65536) s'
    else some s

/-! ## Framebuffer operations -/

/-- Source `st7789_get_width`: returns `SCREEN_WIDTH` as a `uint16_t`. -/
def st7789_get_width (cfg : Config) : Nat := cfg.width % 65536

/-- Source `st7789_get_height`: returns `SCREEN_HEIGHT` as a `uint16_t`. -/
def st7789_get_height (cfg : Config) : Nat := cfg.height % 65536

/-- The index computation of `st7789_fb_put`: the bound check of the active
orientation, then the coordinate inversion of the active mirror setting. The result
is the pair (first index, second index) of the `framebuffer[..][..]` store, or `none`
when the function returns early. -/
def fb_cell (cfg : Config) (x y : Nat) : Option (Nat × Nat) :=
  match cfg.orientation with
  | .portrait =>
    if x ≥ cfg.width ∨ y ≥ cfg.height then none
    else if cfg.mirrorFlip then
      let x1 := toU16 ((st7789_get_width cfg : Int) - x - 1)
      let y1 := toU16 ((st7789_get_height cfg : Int) - y - 1)
      some (y1, x1)
    else some (y, x)
  | .landscape =>
    if x ≥ cfg.height ∨ y ≥ cfg.width then none
    else if cfg.mirrorFlip then
      let y1 := toU16 ((st7789_get_width cfg : Int) - y - 1)
      some (x, y1)
    else
      let x1 := toU16 ((st7789_get_height cfg : Int) - x - 1)
      some (x1, y)

/-- Source `st7789_fb_put(color, x, y)`: stores `color` at the computed cell, or returns
early when the coordinate fails the bound check. -/
def st7789_fb_put (cfg : Config) (color x y : Nat) (s : Driver) : Driver :=
  match fb_cell cfg x y with
  | none => s
  | some (row, col) => { s with framebuffer := fb_store s.framebuffer row col color }

/-- Source `st7789_fb_clear()`: two nested `uint16_t` loops storing 0 in every cell. -/
def st7789_fb_clear (cfg : Config) (fuel : Nat) (s : Driver) : Option Driver :=
  forU16 cfg.height
    (fun y s =>
      forU16 cfg.width
        (fun x s => some { s with framebuffer := fb_store s.framebuffer y x 0 })
        fuel 0 s)
    fuel 0 s

/-! ## Command/data strobe -/

/-- Source `lcd_set_dc_cs(dc, cs)`: drives the data/command and chip-select lines with one
masked write, with a settle delay on either side. -/
def lcd_set_dc_cs (cfg : Config) (dc cs : Bool) (s : Driver) : Driver :=
  let s := sleep_us 1 s
  let s := gpio_put_masked ((1 <<< cfg.pinDC) ||| (1 <<< cfg.pinCS))
    ((dc.toNat <<< cfg.pinDC) ||| (cs.toNat <<< cfg.pinCS)) s
  sleep_us 1 s

/-- The payload loop of `lcd_write_cmd`:
`for (size_t i = 0; i < n; ++i) st7789_lcd_put(pio, sm, *cmd++)`. The pointer `cmd` is
the list of bytes from the pointed-to byte to the end of its array; reading past the
end gives `none`. -/
def put_each : List Nat → Nat → Driver → Option Driver
  | _, 0, s => some s
  | [], _ + 1, _ => none
  | b :: rest, n + 1, s => put_each rest n (st7789_lcd_put b s)

/-- Source `lcd_write_cmd(pio, sm, cmd, count)`. The pointer `cmd` is the list of bytes
from the pointed-to byte to the end of its array; reading past the end gives `none`. -/
def lcd_write_cmd (cfg : Config) (cmd : List Nat) (count : Nat) (s : Driver) : Option Driver :=
  let s := st7789_lcd_wait_idle s
  let s := lcd_set_dc_cs cfg false false s
  match cmd with
  | [] => none
  | opcode :: cmd =>
    let s := st7789_lcd_put opcode s
    let payload : Option Driver :=
      if count ≥ 2 then
        let s := st7789_lcd_wait_idle s
        let s := lcd_set_dc_cs cfg true false s
        put_each cmd (count - 1) s
      else some s
    payload.map fun s =>
      let s := st7789_lcd_wait_idle s
      lcd_set_dc_cs cfg true true s

/-! ## Controller bring-up -/

/-- Conversion of an `int` constant to `uint8_t`, as in an initialiser of a
`uint8_t` array. -/
def toU8 (n : Nat) : Nat := n % 256

/-- The table `st7789_init_seq`. Each entry: command length (including the command
byte), post delay in units of 5 ms, then the command and its payload; a zero length
ends the list. -/
def st7789_init_seq (cfg : Config) : List Nat :=
  [ 1, 20, 0x01,
    1, 10, 0x11,
    2, 2, 0x3A, 0x55,
    2, 0, 0x36, 0x00,
    5, 0, 0x2A, 0x00, 0x00, toU8 (cfg.width >>> 8), toU8 (cfg.width &&& 0xFF),
    5, 0, 0x2B, 0x00, 0x00, toU8 (cfg.height >>> 8), toU8 (cfg.height &&& 0xFF),
    1, 2, 0x21,
    1, 2, 0x13,
    1, 2, 0x29,
    0 ]

/-- The loop of `st7789_lcd_init` that replays a command table:
`while (*cmd) { lcd_write_cmd(pio, sm, cmd + 2, *cmd); sleep_ms(*(cmd + 1) * 5);
cmd += *cmd + 2; }`. The pointer `cmd` is the list of bytes from the pointed-to byte to
the end of the table, here `len :: tail` once `*cmd` has been read; reading past the end
gives `none`. -/
def init_loop (cfg : Config) : List Nat → Driver → Option Driver
  | [], _ => none
  | len :: tail, s =>
    if len = 0 then some s
    else
      match lcd_write_cmd cfg ((len :: tail).drop 2) len s with
      | none => none
      | some s =>
        match (len :: tail)[1]? with
        | none => none
        | some delay =>
          init_loop cfg ((len :: tail).drop (len + 2)) (sleep_ms (delay * 5) s)
termination_by cmd => cmd.length
decreasing_by
  simp only [List.length_drop, List.length_cons]
  omega

/-! ## Frame push, lifecycle, backlight -/

/-- Source `st7789_start_pixels(pio, sm)`: the RAMWR command, then data mode with the
chip selected. -/
def st7789_start_pixels (cfg : Config) (s : Driver) : Option Driver :=
  (lcd_write_cmd cfg [0x2c] 1 s).map fun s => lcd_set_dc_cs cfg true false s

/-- Source `st7789_lcd_push_fb()`: starts a memory write and streams every cell, row by
row, high byte first. -/
def st7789_lcd_push_fb (cfg : Config) (fuel : Nat) (s : Driver) : Option Driver :=
  (st7789_start_pixels cfg s).bind fun s =>
    forU16 cfg.height
      (fun y s =>
        forU16 cfg.width
          (fun x s =>
            let color := s.framebuffer y x
            let s := st7789_lcd_put (color >>> 8) s
            some (st7789_lcd_put (color &&& 0xFF) s))
          fuel 0 s)
      fuel 0 s

/-- Source `st7789_lcd_init()`. -/
def st7789_lcd_init (cfg : Config) (fuel : Nat) (s : Driver) : Option Driver :=
  let s := emit .pioAddProgram s
  let s := emit (.pioProgramInit cfg.pinDIN cfg.pinCLK) s
  let s := gpio_init cfg.pinCS s
  let s := gpio_init cfg.pinDC s
  let s := gpio_init cfg.pinRST s
  let s := gpio_init cfg.pinBL s
  let s := gpio_set_dir_out cfg.pinCS s
  let s := gpio_set_dir_out cfg.pinDC s
  let s := gpio_set_dir_out cfg.pinRST s
  let s := gpio_set_dir_out cfg.pinBL s
  let s := gpio_put cfg.pinCS true s
  let s := gpio_put cfg.pinRST true s
  (init_loop cfg (st7789_init_seq cfg) s).bind fun s =>
    let s := gpio_put cfg.pinBL true s
    (st7789_fb_clear cfg fuel s).bind fun s =>
      st7789_lcd_push_fb cfg fuel s

/-- Source `st7789_bl_on()`. -/
def st7789_bl_on (cfg : Config) (s : Driver) : Driver := gpio_put cfg.pinBL true s

/-- Source `st7789_bl_off()`. -/
def st7789_bl_off (cfg : Config) (s : Driver) : Driver := gpio_put cfg.pinBL false s

/-! ## The strobe protocol as the specification words it -/

/-- The write that asserts command-select = `dc` and chip-select = `cs`: one masked
write to the two lines. -/
def setLines (cfg : Config) (dc cs : Bool) : Event :=
  .gpioPutMasked ((1 <<< cfg.pinDC) ||| (1 <<< cfg.pinCS))
    ((dc.toNat <<< cfg.pinDC) ||| (cs.toNat <<< cfg.pinCS))

/-- The trace prescribed for `write_command(opcode, payload)`: wait idle; lines (0, 0);
opcode; if the payload is non-empty: wait idle, lines (1, 0), the payload bytes; wait
idle; lines (1, 1). Every line change sits between two 1 µs delays. -/
def specWriteCommand (cfg : Config) (opcode : Nat) (payload : List Nat) : List Event :=
  [.waitIdle, .sleepUs 1, setLines cfg false false, .sleepUs 1, .put opcode]
    ++ (if payload = [] then []
        else [.waitIdle, .sleepUs 1, setLines cfg true false, .sleepUs 1]
          ++ payload.map .put)
    ++ [.waitIdle, .sleepUs 1, setLines cfg true true, .sleepUs 1]

/-! ## The command table as the specification words it -/

/-- One entry of a command table: post delay in units of 5 ms, opcode, payload. -/
structure InitEntry where
  delay : Nat
  opcode : Nat
  payload : List Nat
  deriving DecidableEq, Repr

/-- The bytes of an entry: its length (the opcode byte plus the payload, so at least 1),
its delay, its opcode, its payload. -/
def InitEntry.bytes (e : InitEntry) : List Nat :=
  (1 + e.payload.length) :: e.delay :: e.opcode :: e.payload

/-- A well-formed table: the entries one after another, ended by a zero length byte. -/
def tableBytes (es : List InitEntry) : List Nat :=
  es.flatMap InitEntry.bytes ++ [0]

/-- The trace prescribed for a table: for each entry in order, one `write_command` with
its opcode and payload, then a sleep of `delay × 5` milliseconds. -/
def specInitTrace (cfg : Config) (es : List InitEntry) : List Event :=
  es.flatMap fun e => specWriteCommand cfg e.opcode e.payload ++ [.sleepMs (e.delay * 5)]

/-- The nine entries of the built-in table, in order, with the address windows of a
panel of the given dimensions. -/
def initEntries (cfg : Config) : List InitEntry :=
  [ { delay := 20, opcode := 0x01, payload := [] },
    { delay := 10, opcode := 0x11, payload := [] },
    { delay := 2, opcode := 0x3A, payload := [0x55] },
    { delay := 0, opcode := 0x36, payload := [0x00] },
    { delay := 0, opcode := 0x2A,
      payload := [0x00, 0x00, cfg.width >>> 8, cfg.width &&& 0xFF] },
    { delay := 0, opcode := 0x2B,
      payload := [0x00, 0x00, cfg.height >>> 8, cfg.height &&& 0xFF] },
    { delay := 2, opcode := 0x21, payload := [] },
    { delay := 2, opcode := 0x13, payload := [] },
    { delay := 2, opcode := 0x29, payload := [] } ]

/-! ## The pixel stream as the specification words it -/

/-- The two bytes of a pixel on the wire: high byte, then low byte. -/
def pixelBytes (color : Nat) : List Nat := [color >>> 8, color &&& 0xFF]

/-- The bytes of row `y`, columns `0 .. width-1` in order. -/
def rowBytes (cfg : Config) (fb : Framebuffer) (y : Nat) : List Nat :=
  (List.range cfg.width).flatMap fun x => pixelBytes (fb y x)

/-- The bytes of the whole frame in raster order: rows `0 .. height-1`, each row from
column 0 on. -/
def frameBytes (cfg : Config) (fb : Framebuffer) : List Nat :=
  (List.range cfg.height).flatMap (rowBytes cfg fb)

/-- A 16-bit address from its two bytes, most significant first, as the controller reads
the parameters of its address-window commands. -/
def beU16 (hi lo : Nat) : Nat := hi * 256 + lo

/-! ## Reading a frame back from the wire -/

/-- Recombines consecutive byte pairs, high byte first, as `(high << 8) | low`. -/
def decodePixels : List Nat → List Nat
  | hi :: lo :: rest => ((hi <<< 8) ||| lo) :: decodePixels rest
  | _ => []

/-- The bytes one call of `st7789_lcd_push_fb` puts on the channel: those of the
accesses the call appends to the trace. -/
def pushStream (cfg : Config) (fuel : Nat) (s : Driver) : Option (List Nat) :=
  (st7789_lcd_push_fb cfg fuel s).map fun s' => putBytes (s'.trace.drop s.trace.length)

/-! ## Sequences of framebuffer calls -/

/-- One call of `st7789_fb_put`, `st7789_fb_clear` or `st7789_lcd_push_fb`. -/
inductive Call
  | put (color x y : Nat)
  | clear
  | push
  deriving DecidableEq, Repr

/-- Runs one call. -/
def runCall (cfg : Config) (fuel : Nat) : Call → Driver → Option Driver
  | .put color x y, s => some (st7789_fb_put cfg color x y s)
  | .clear, s => st7789_fb_clear cfg fuel s
  | .push, s => st7789_lcd_push_fb cfg fuel s

/-- Runs the calls one after another, first to last. -/
def runCalls (cfg : Config) (fuel : Nat) : List Call → Driver → Option Driver
  | [], s => some s
  | c :: rest, s => (runCall cfg fuel c s).bind (runCalls cfg fuel rest)

/-- The colour of the most recent put at `(x, y)` issued since the most recent clear, 0
when a clear came after the last such put, and `v` when the calls hold neither. -/
def lastPut (x y : Nat) : List Call → Nat → Nat
  | [], v => v
  | .put color x1 y1 :: rest, v => lastPut x y rest (if x1 = x ∧ y1 = y then color else v)
  | .clear :: rest, _ => lastPut x y rest 0
  | .push :: rest, v => lastPut x y rest v

/-! ## The lifecycle as the specification words it -/

/-- The accesses of `init()` before the Init Sequencer runs: acquire the channel, set up
the four control lines as outputs, deselect chip-select and deassert reset. -/
def bringUpTrace (cfg : Config) : List Event :=
  [ .pioAddProgram, .pioProgramInit cfg.pinDIN cfg.pinCLK,
    .gpioInit cfg.pinCS, .gpioInit cfg.pinDC, .gpioInit cfg.pinRST, .gpioInit cfg.pinBL,
    .gpioSetDirOut cfg.pinCS, .gpioSetDirOut cfg.pinDC, .gpioSetDirOut cfg.pinRST,
    .gpioSetDirOut cfg.pinBL,
    .gpioPut cfg.pinCS true, .gpioPut cfg.pinRST true ]

/-- The accesses of one push of a frame of the given bytes: the memory-write command
with an empty payload, the switch to streaming mode, the bytes. -/
def specPushTrace (cfg : Config) (bytes : List Nat) : List Event :=
  specWriteCommand cfg 0x2C [] ++ [.sleepUs 1, setLines cfg true false, .sleepUs 1]
    ++ bytes.map .put

/-! ## The init loop as a walk over table indices -/

/-- The loop of `st7789_lcd_init` over a table, with the pointer `cmd` kept as the index
`i` it points to. A turn reads the length byte `cmd[0]` at index `i`; at the zero byte
the walk ends. Otherwise `lcd_write_cmd(pio, sm, cmd + 2, *cmd)` reads `*cmd` bytes from
index `i + 2` on, `*(cmd + 1)` reads index `i + 1`, and `cmd += *cmd + 2` moves on. The
result lists, turn by turn, the index of the length byte and the highest index read in
that turn; it is `none` when an index past the end of the table is read, or when the
`fuel` turns are used up. -/
def init_walk (table : List Nat) : Nat → Nat → Option (List (Nat × Nat))
  | 0, _ => none
  | fuel + 1, i =>
    match table[i]? with
    | none => none
    | some len =>
      if len = 0 then some [(i, i)]
      else if i + 2 + (len - 1) < table.length then
        (init_walk table fuel (i + (len + 2))).map fun turns => (i, i + 2 + (len - 1)) :: turns
      else none

/-- The accesses of one turn of the walk, read from the table at the turn's indices: with
the length byte at index `i`, the delay byte is at `i + 1`, the opcode at `i + 2`, the
payload runs from `i + 3` to the turn's highest index, and the turn is one
`write_command` followed by a sleep of `delay × 5` ms. The turn at the zero length byte
makes no access. -/
def turnTrace (cfg : Config) (table : List Nat) (turn : Nat × Nat) : List Event :=
  if table.getD turn.1 0 = 0 then []
  else
    specWriteCommand cfg (table.getD (turn.1 + 2) 0)
        ((table.drop (turn.1 + 3)).take (turn.2 - (turn.1 + 2)))
      ++ [.sleepMs (table.getD (turn.1 + 1) 0 * 5)]

/-! ## Sample inputs -/

/-- A 3-wide, 4-high portrait panel without mirror-flip. -/
def panelPortrait : Config :=
  { width := 3, height := 4, orientation := .portrait, mirrorFlip := false,
    pinDIN := 0, pinCLK := 1, pinCS := 2, pinDC := 3, pinRST := 4, pinBL := 5 }

/-- A 3-wide, 4-high landscape panel without mirror-flip. -/
def panelLandscape : Config :=
  { panelPortrait with orientation := .landscape }

/-- A 1-wide, 2-high portrait panel without mirror-flip. -/
def panelTiny : Config :=
  { panelPortrait with width := 1, height := 2 }

/-- The 240 x 320 part the driver was tested with. -/
def panel240x320 : Config :=
  { panelPortrait with width := 240, height := 320 }

/-- A state whose cells all hold distinct non-zero values and whose trace is empty. -/
def sampleDriver : Driver :=
  { framebuffer := fun r c => 0x1200 + 16 * r + c, trace := [] }

/-- A state with a cleared framebuffer and an empty trace. -/
def blankDriver : Driver :=
  { framebuffer := fun _ _ => 0, trace := [] }

/-- A run of calls: two puts at `(1, 2)` around a push, a put elsewhere, an out-of-bound
put, a clear, a last put at `(1, 2)`, a push. -/
def sampleCalls : List Call :=
  [.put 7 1 2, .put 9 0 0, .push, .put 8 1 2, .put 5 3 0, .clear, .put 6 1 2, .push]

/-! ## Framebuffer cell addressing -/

theorem fb_store_same (fb : Framebuffer) (row col v : Nat) : fb_store fb row col v row col = v := by
  simp [fb_store]

theorem fb_store_other (fb : Framebuffer) (row col v r k : Nat) (h : ¬ (r = row ∧ k = col)) :
    fb_store fb row col v r k = fb r k := by
  simp [fb_store, h]

theorem fb_cell_portrait (cfg : Config) (x y : Nat) (ho : cfg.orientation = .portrait)
    (hW : cfg.width < 65536) (hH : cfg.height < 65536) (hx : x < cfg.width) (hy : y < cfg.height) :
    fb_cell cfg x y =
      some (if cfg.mirrorFlip then (cfg.height - 1 - y, cfg.width - 1 - x) else (y, x)) := by
  have h1 : ¬ (x ≥ cfg.width ∨ y ≥ cfg.height) := by omega
  have h2 : toU16 ((st7789_get_width cfg : Int) - x - 1) = cfg.width - 1 - x := by
    unfold toU16 st7789_get_width
    omega
  have h3 : toU16 ((st7789_get_height cfg : Int) - y - 1) = cfg.height - 1 - y := by
    unfold toU16 st7789_get_height
    omega
  unfold fb_cell
  rw [ho]
  simp only [h1, if_false, h2, h3]
  cases cfg.mirrorFlip <;> simp

theorem fb_cell_landscape (cfg : Config) (x y : Nat) (ho : cfg.orientation = .landscape)
    (hW : cfg.width < 65536) (hH : cfg.height < 65536) (hx : x < cfg.height) (hy : y < cfg.width) :
    fb_cell cfg x y =
      some (if cfg.mirrorFlip then (x, cfg.width - 1 - y) else (cfg.height - 1 - x, y)) := by
  have h1 : ¬ (x ≥ cfg.height ∨ y ≥ cfg.width) := by omega
  have h2 : toU16 ((st7789_get_width cfg : Int) - y - 1) = cfg.width - 1 - y := by
    unfold toU16 st7789_get_width
    omega
  have h3 : toU16 ((st7789_get_height cfg : Int) - x - 1) = cfg.height - 1 - x := by
    unfold toU16 st7789_get_height
    omega
  unfold fb_cell
  rw [ho]
  simp only [h1, if_false, h2, h3]
  cases cfg.mirrorFlip <;> simp

theorem fb_cell_none (cfg : Config) (x y : Nat)
    (h : match cfg.orientation with
      | .portrait => x ≥ cfg.width ∨ y ≥ cfg.height
      | .landscape => x ≥ cfg.height ∨ y ≥ cfg.width) :
    fb_cell cfg x y = none := by
  unfold fb_cell
  cases ho : cfg.orientation <;> rw [ho] at h <;> simp only at h ⊢ <;> rw [if_pos h]

theorem fb_put_at (cfg : Config) (s : Driver) (c x y row col : Nat)
    (h : fb_cell cfg x y = some (row, col)) :
    st7789_fb_put cfg c x y s = { s with framebuffer := fb_store s.framebuffer row col c } := by
  simp [st7789_fb_put, h]

/-- C1: in portrait orientation, for every state, colour `c` and in-bound `(x, y)`
(`x < width`, `y < height`), `st7789_fb_put` leaves `c` at cell `[y][x]` when mirror-flip
is off and at cell `[height-1-y][width-1-x]` when it is on; every other cell keeps its
value, and no hardware access is made. -/
theorem fb_put_portrait (cfg : Config) (s : Driver) (c x y : Nat)
    (ho : cfg.orientation = .portrait)
    (hW : cfg.width < 65536) (hH : cfg.height < 65536)
    (hx : x < cfg.width) (hy : y < cfg.height) :
    (cfg.mirrorFlip = false →
      (st7789_fb_put cfg c x y s).framebuffer y x = c ∧
      ∀ r k, ¬ (r = y ∧ k = x) →
        (st7789_fb_put cfg c x y s).framebuffer r k = s.framebuffer r k) ∧
    (cfg.mirrorFlip = true →
      (st7789_fb_put cfg c x y s).framebuffer (cfg.height - 1 - y) (cfg.width - 1 - x) = c ∧
      ∀ r k, ¬ (r = cfg.height - 1 - y ∧ k = cfg.width - 1 - x) →
        (st7789_fb_put cfg c x y s).framebuffer r k = s.framebuffer r k) ∧
    (st7789_fb_put cfg c x y s).trace = s.trace := by
  have hcell := fb_cell_portrait cfg x y ho hW hH hx hy
  refine ⟨fun hm => ?_, fun hm => ?_, ?_⟩
  · rw [hm] at hcell
    rw [fb_put_at cfg s c x y _ _ hcell]
    exact ⟨fb_store_same _ _ _ _, fun r k h => fb_store_other _ _ _ _ r k h⟩
  · rw [hm] at hcell
    rw [fb_put_at cfg s c x y _ _ hcell]
    exact ⟨fb_store_same _ _ _ _, fun r k h => fb_store_other _ _ _ _ r k h⟩
  · cases hm : cfg.mirrorFlip <;> rw [hm] at hcell <;> rw [fb_put_at cfg s c x y _ _ hcell]

theorem fb_put_portrait_witness :
    (st7789_fb_put { panelPortrait with mirrorFlip := true } 0xF800 2 1 sampleDriver).framebuffer
        2 0 = 0xF800 ∧
    (st7789_fb_put { panelPortrait with mirrorFlip := true } 0xF800 2 1 sampleDriver).framebuffer
        1 2 = 0x1212 ∧
    (st7789_fb_put panelPortrait 0xF800 2 1 sampleDriver).framebuffer 1 2 = 0xF800 :=
  ⟨((fb_put_portrait { panelPortrait with mirrorFlip := true } sampleDriver 0xF800 2 1 rfl
      (by decide) (by decide) (by decide) (by decide)).2.1 rfl).1,
   by decide,
   ((fb_put_portrait panelPortrait sampleDriver 0xF800 2 1 rfl
      (by decide) (by decide) (by decide) (by decide)).1 rfl).1⟩

/-- C2: in landscape orientation, for every state, colour `c` and in-bound `(x, y)`
(`x < height`, `y < width`), `st7789_fb_put` leaves `c` at cell `[x][width-1-y]` when
mirror-flip is on and at cell `[height-1-x][y]` when it is off; every other cell keeps
its value, and no hardware access is made. -/
theorem fb_put_landscape (cfg : Config) (s : Driver) (c x y : Nat)
    (ho : cfg.orientation = .landscape)
    (hW : cfg.width < 65536) (hH : cfg.height < 65536)
    (hx : x < cfg.height) (hy : y < cfg.width) :
    (cfg.mirrorFlip = true →
      (st7789_fb_put cfg c x y s).framebuffer x (cfg.width - 1 - y) = c ∧
      ∀ r k, ¬ (r = x ∧ k = cfg.width - 1 - y) →
        (st7789_fb_put cfg c x y s).framebuffer r k = s.framebuffer r k) ∧
    (cfg.mirrorFlip = false →
      (st7789_fb_put cfg c x y s).framebuffer (cfg.height - 1 - x) y = c ∧
      ∀ r k, ¬ (r = cfg.height - 1 - x ∧ k = y) →
        (st7789_fb_put cfg c x y s).framebuffer r k = s.framebuffer r k) ∧
    (st7789_fb_put cfg c x y s).trace = s.trace := by
  have hcell := fb_cell_landscape cfg x y ho hW hH hx hy
  refine ⟨fun hm => ?_, fun hm => ?_, ?_⟩
  · rw [hm] at hcell
    rw [fb_put_at cfg s c x y _ _ hcell]
    exact ⟨fb_store_same _ _ _ _, fun r k h => fb_store_other _ _ _ _ r k h⟩
  · rw [hm] at hcell
    rw [fb_put_at cfg s c x y _ _ hcell]
    exact ⟨fb_store_same _ _ _ _, fun r k h => fb_store_other _ _ _ _ r k h⟩
  · cases hm : cfg.mirrorFlip <;> rw [hm] at hcell <;> rw [fb_put_at cfg s c x y _ _ hcell]

theorem fb_put_landscape_witness :
    (st7789_fb_put { panelLandscape with mirrorFlip := true } 0x07E0 3 1 sampleDriver).framebuffer
        3 1 = 0x07E0 ∧
    (st7789_fb_put { panelLandscape with mirrorFlip := true } 0x07E0 3 1 sampleDriver).framebuffer
        0 1 = 0x1201 ∧
    (st7789_fb_put panelLandscape 0x07E0 3 1 sampleDriver).framebuffer 0 1 = 0x07E0 :=
  ⟨((fb_put_landscape { panelLandscape with mirrorFlip := true } sampleDriver 0x07E0 3 1 rfl
      (by decide) (by decide) (by decide) (by decide)).1 rfl).1,
   by decide,
   ((fb_put_landscape panelLandscape sampleDriver 0x07E0 3 1 rfl
      (by decide) (by decide) (by decide) (by decide)).2.1 rfl).1⟩

/-- C3: in each of the four configurations, for every state, colour and `(x, y)` outside
the logical bound of the active orientation (portrait: `x ≥ width` or `y ≥ height`;
landscape: `x ≥ height` or `y ≥ width`), `st7789_fb_put` returns the state it was given:
the whole framebuffer is unchanged and no hardware access is made. The function has no
result through which an error could be reported. -/
theorem fb_put_out_of_bounds (cfg : Config) (s : Driver) (c x y : Nat)
    (h : (cfg.orientation = .portrait ∧ (x ≥ cfg.width ∨ y ≥ cfg.height)) ∨
         (cfg.orientation = .landscape ∧ (x ≥ cfg.height ∨ y ≥ cfg.width))) :
    st7789_fb_put cfg c x y s = s := by
  have hnone : fb_cell cfg x y = none := by
    apply fb_cell_none
    rcases h with ⟨ho, hb⟩ | ⟨ho, hb⟩ <;> rw [ho] <;> exact hb
  simp [st7789_fb_put, hnone]

theorem fb_put_out_of_bounds_witness :
    st7789_fb_put panelPortrait 0xFFFF 3 0 sampleDriver = sampleDriver ∧
    st7789_fb_put { panelPortrait with mirrorFlip := true } 0xFFFF 0 4 sampleDriver
      = sampleDriver ∧
    st7789_fb_put panelLandscape 0xFFFF 4 0 sampleDriver = sampleDriver ∧
    st7789_fb_put { panelLandscape with mirrorFlip := true } 0xFFFF 0 3 sampleDriver
      = sampleDriver :=
  ⟨fb_put_out_of_bounds panelPortrait sampleDriver 0xFFFF 3 0
      (Or.inl ⟨rfl, Or.inl (by decide)⟩),
   fb_put_out_of_bounds { panelPortrait with mirrorFlip := true } sampleDriver 0xFFFF 0 4
      (Or.inl ⟨rfl, Or.inr (by decide)⟩),
   fb_put_out_of_bounds panelLandscape sampleDriver 0xFFFF 4 0
      (Or.inr ⟨rfl, Or.inl (by decide)⟩),
   fb_put_out_of_bounds { panelLandscape with mirrorFlip := true } sampleDriver 0xFFFF 0 3
      (Or.inr ⟨rfl, Or.inr (by decide)⟩)⟩

/-- Whether `(x, y)` lies within the logical bound of the active orientation. -/
theorem fb_cell_isSome_iff (cfg : Config) (x y : Nat) :
    (fb_cell cfg x y).isSome = true ↔
      (cfg.orientation = .portrait ∧ x < cfg.width ∧ y < cfg.height) ∨
      (cfg.orientation = .landscape ∧ x < cfg.height ∧ y < cfg.width) := by
  unfold fb_cell
  cases ho : cfg.orientation <;> simp only <;> split_ifs <;> simp <;> omega

/-- The cell computed for an accepted coordinate, in closed form. -/
theorem fb_cell_eq_some (cfg : Config) (hW : cfg.width < 65536) (hH : cfg.height < 65536)
    (x y : Nat) (cell : Nat × Nat) (h : fb_cell cfg x y = some cell) :
    (cfg.orientation = .portrait ∧ x < cfg.width ∧ y < cfg.height ∧
      cell = (if cfg.mirrorFlip then (cfg.height - 1 - y, cfg.width - 1 - x) else (y, x))) ∨
    (cfg.orientation = .landscape ∧ x < cfg.height ∧ y < cfg.width ∧
      cell = (if cfg.mirrorFlip then (x, cfg.width - 1 - y) else (cfg.height - 1 - x, y))) := by
  have hs : (fb_cell cfg x y).isSome = true := by rw [h]; rfl
  rcases (fb_cell_isSome_iff cfg x y).1 hs with ⟨ho, hx, hy⟩ | ⟨ho, hx, hy⟩
  · left
    rw [fb_cell_portrait cfg x y ho hW hH hx hy] at h
    exact ⟨ho, hx, hy, (Option.some.inj h).symm⟩
  · right
    rw [fb_cell_landscape cfg x y ho hW hH hx hy] at h
    exact ⟨ho, hx, hy, (Option.some.inj h).symm⟩

/-- C4: in each of the four configurations the mapping from logical `(x, y)` to the
framebuffer cell is injective on the accepted coordinates (two coordinates mapped to the
same cell are equal), every accepted coordinate is mapped to a cell of the
`height × width` framebuffer, and every such cell is the image of exactly one accepted
coordinate. -/
theorem fb_cell_bijective (cfg : Config) (hW : cfg.width < 65536) (hH : cfg.height < 65536) :
    (∀ x y x' y' cell, fb_cell cfg x y = some cell → fb_cell cfg x' y' = some cell →
      x = x' ∧ y = y') ∧
    (∀ x y r k, fb_cell cfg x y = some (r, k) → r < cfg.height ∧ k < cfg.width) ∧
    (∀ r k, r < cfg.height → k < cfg.width →
      ∃ x y, fb_cell cfg x y = some (r, k) ∧
        ∀ x' y', fb_cell cfg x' y' = some (r, k) → x' = x ∧ y' = y) := by
  have inj : ∀ x y x' y' cell, fb_cell cfg x y = some cell → fb_cell cfg x' y' = some cell →
      x = x' ∧ y = y' := by
    intro x y x' y' cell h h'
    rcases fb_cell_eq_some cfg hW hH x y cell h with ⟨ho, hx, hy, hc⟩ | ⟨ho, hx, hy, hc⟩ <;>
    rcases fb_cell_eq_some cfg hW hH x' y' cell h' with ⟨ho', hx', hy', hc'⟩ | ⟨ho', hx', hy', hc'⟩
    · rw [hc] at hc'
      cases hm : cfg.mirrorFlip <;> simp [hm] at hc' <;> omega
    · rw [ho] at ho'; cases ho'
    · rw [ho] at ho'; cases ho'
    · rw [hc] at hc'
      cases hm : cfg.mirrorFlip <;> simp [hm] at hc' <;> omega
  refine ⟨inj, ?_, ?_⟩
  · intro x y r k h
    rcases fb_cell_eq_some cfg hW hH x y (r, k) h with ⟨_, hx, hy, hc⟩ | ⟨_, hx, hy, hc⟩ <;>
      cases hm : cfg.mirrorFlip <;> simp [hm] at hc <;> omega
  · intro r k hr hk
    have key : ∃ x y, fb_cell cfg x y = some (r, k) := by
      cases ho : cfg.orientation <;> cases hm : cfg.mirrorFlip
      · refine ⟨k, r, ?_⟩
        rw [fb_cell_portrait cfg k r ho hW hH hk hr, hm]
        simp
      · refine ⟨cfg.width - 1 - k, cfg.height - 1 - r, ?_⟩
        rw [fb_cell_portrait cfg _ _ ho hW hH (by omega) (by omega), hm]
        simp
        omega
      · refine ⟨cfg.height - 1 - r, k, ?_⟩
        rw [fb_cell_landscape cfg _ _ ho hW hH (by omega) hk, hm]
        simp
        omega
      · refine ⟨r, cfg.width - 1 - k, ?_⟩
        rw [fb_cell_landscape cfg _ _ ho hW hH hr (by omega), hm]
        simp
        omega
    obtain ⟨x, y, hxy⟩ := key
    exact ⟨x, y, hxy, fun x' y' h' => inj x' y' x y (r, k) h' hxy⟩

theorem fb_cell_bijective_witness :
    fb_cell { panelLandscape with mirrorFlip := true } 3 0 = some (3, 2) ∧
    (∀ x' y', fb_cell { panelLandscape with mirrorFlip := true } x' y' = some (3, 2) →
      3 = x' ∧ 0 = y') :=
  ⟨by decide, fun x' y' h =>
    (fb_cell_bijective { panelLandscape with mirrorFlip := true } (by decide) (by decide)).1
      3 0 x' y' (3, 2) (by decide) h⟩

/-! ## Loops over a 16-bit counter -/

/-- Invariant rule for `forU16`: when the bound fits the counter, the budget exceeds the
iterations left, and every iteration returns and carries the invariant from `j` to
`j + 1`, the loop returns with the invariant at the bound. -/
theorem forU16_rule {σ : Type} (Inv : Nat → σ → Prop) (bound : Nat)
    (body : Nat → σ → Option σ) (hb : bound < 65536)
    (hstep : ∀ j s, j < bound → Inv j s → ∃ s', body j s = some s' ∧ Inv (j + 1) s') :
    ∀ fuel i s, i ≤ bound → bound - i < fuel → Inv i s →
      ∃ s', forU16 bound body fuel i s = some s' ∧ Inv bound s' := by
  intro fuel
  induction fuel with
  | zero => intro i s _ h; omega
  | succ n ih =>
    intro i s hi hf hinv
    by_cases hlt : i < bound
    · obtain ⟨s', hs', hinv'⟩ := hstep i s hlt hinv
      have hwrap : (i + 1) % 65536 = i + 1 := by omega
      simp only [forU16, hlt, if_true, hs', hwrap]
      exact ih (i + 1) s' (by omega) (by omega) hinv'
    · have hib : i = bound := by omega
      subst hib
      exact ⟨s, by simp [forU16], hinv⟩

/-- A bound the 16-bit counter cannot reach: the loop never returns, whatever the budget. -/
theorem forU16_diverges {σ : Type} (bound : Nat) (body : Nat → σ → Option σ)
    (hb : 65536 ≤ bound) :
    ∀ fuel i s, i < 65536 → forU16 bound body fuel i s = none := by
  intro fuel
  induction fuel with
  | zero => intro i s _; rfl
  | succ n ih =>
    intro i s hi
    have hlt : i < bound := by omega
    simp only [forU16, hlt, if_true]
    cases body i s with
    | none => rfl
    | some s' => exact ih _ s' (Nat.mod_lt _ (by decide))

/-! ## Clearing the framebuffer -/

/-- A panel height the 16-bit row counter cannot reach: `st7789_fb_clear` never returns. -/
theorem fb_clear_diverges (cfg : Config) (hH : 65536 ≤ cfg.height) (fuel : Nat) (s : Driver) :
    st7789_fb_clear cfg fuel s = none :=
  forU16_diverges cfg.height _ hH fuel 0 s (by decide)

/-- One row of `st7789_fb_clear`: the inner loop zeroes the cells of row `y` in columns
below the width and leaves everything else alone. -/
theorem fb_clear_row (cfg : Config) (hW : cfg.width < 65536) (fuel : Nat)
    (hf : cfg.width < fuel) (y : Nat) (s : Driver) :
    ∃ s', forU16 cfg.width
        (fun x s => some { s with framebuffer := fb_store s.framebuffer y x 0 }) fuel 0 s
        = some s' ∧
      s'.trace = s.trace ∧
      ∀ r k, s'.framebuffer r k = if r = y ∧ k < cfg.width then 0 else s.framebuffer r k := by
  have hloop := forU16_rule
    (fun x (t : Driver) => t.trace = s.trace ∧
      ∀ r k, t.framebuffer r k = if r = y ∧ k < x then 0 else s.framebuffer r k)
    cfg.width (fun x s => some { s with framebuffer := fb_store s.framebuffer y x 0 }) hW
    (by
      intro j t _ hinv
      refine ⟨_, rfl, hinv.1, ?_⟩
      intro r k
      simp only [fb_store, hinv.2]
      split_ifs <;> first | rfl | omega)
    fuel 0 s (Nat.zero_le _) (by omega) ⟨rfl, by simp⟩
  exact hloop

/-- C6: for every prior state, `st7789_fb_clear` returns (given a loop budget above the
panel dimensions, which fit the 16-bit loop counters), and afterwards every cell with
`y < height`, `x < width` holds 0; nothing outside the array is written and no hardware
access is made. -/
theorem fb_clear_all_zero (cfg : Config) (hW : cfg.width < 65536) (hH : cfg.height < 65536)
    (fuel : Nat) (hfW : cfg.width < fuel) (hfH : cfg.height < fuel) (s : Driver) :
    ∃ s', st7789_fb_clear cfg fuel s = some s' ∧
      (∀ y x, y < cfg.height → x < cfg.width → s'.framebuffer y x = 0) ∧
      (∀ y x, ¬ (y < cfg.height ∧ x < cfg.width) → s'.framebuffer y x = s.framebuffer y x) ∧
      s'.trace = s.trace := by
  have hloop := forU16_rule
    (fun y (t : Driver) => t.trace = s.trace ∧
      ∀ r k, t.framebuffer r k = if r < y ∧ k < cfg.width then 0 else s.framebuffer r k)
    cfg.height
    (fun y s =>
      forU16 cfg.width
        (fun x s => some { s with framebuffer := fb_store s.framebuffer y x 0 }) fuel 0 s)
    hH
    (by
      intro j t _ hinv
      obtain ⟨t', ht', htr, hfb⟩ := fb_clear_row cfg hW fuel hfW j t
      refine ⟨t', ht', htr.trans hinv.1, ?_⟩
      intro r k
      rw [hfb, hinv.2]
      split_ifs <;> first | rfl | omega)
    fuel 0 s (Nat.zero_le _) (by omega) ⟨rfl, by simp⟩
  obtain ⟨s', hs', htr, hfb⟩ := hloop
  refine ⟨s', hs', ?_, ?_, htr⟩
  · intro y x hy hx
    rw [hfb, if_pos ⟨hy, hx⟩]
  · intro y x hxy
    rw [hfb, if_neg hxy]

theorem fb_clear_all_zero_witness :
    (st7789_fb_clear panelPortrait 5 sampleDriver).map (fun s => s.framebuffer 3 2) = some 0 ∧
    sampleDriver.framebuffer 3 2 = 0x1232 := by
  obtain ⟨s', hs', hz, _, _⟩ :=
    fb_clear_all_zero panelPortrait (by decide) (by decide) 5 (by decide) (by decide) sampleDriver
  refine ⟨?_, by decide⟩
  rw [hs', Option.map_some', hz 3 2 (by decide) (by decide)]

/-! ## Command/data strobe -/

/-- With distinct pins, the masked write of `setLines` drives exactly the two lines. -/
theorem applyEvent_setLines (cfg : Config) (hne : cfg.pinDC ≠ cfg.pinCS) (l : Lines)
    (dc cs : Bool) (p : Nat) :
    applyEvent l (setLines cfg dc cs) p =
      if p = cfg.pinDC then dc else if p = cfg.pinCS then cs else l p := by
  have hbit : ∀ (b : Bool) (a : Nat), (b.toNat <<< a).testBit p = (decide (a = p) && b) := by
    intro b a
    cases b
    · simp
    · simp [Nat.one_shiftLeft, Nat.testBit_two_pow]
  have hone : ∀ a : Nat, ((1 : Nat) <<< a).testBit p = decide (a = p) := by
    intro a
    simp [Nat.one_shiftLeft, Nat.testBit_two_pow]
  simp only [setLines, applyEvent, Nat.testBit_or, hbit, hone]
  by_cases h1 : p = cfg.pinDC
  · subst h1
    simp [hne, Ne.symm hne]
  · by_cases h2 : p = cfg.pinCS
    · subst h2
      simp [hne, Ne.symm hne]
    · simp [h1, h2, Ne.symm h1, Ne.symm h2]

theorem lcd_set_dc_cs_eq (cfg : Config) (dc cs : Bool) (s : Driver) :
    lcd_set_dc_cs cfg dc cs s =
      { s with trace := s.trace ++ [.sleepUs 1, setLines cfg dc cs, .sleepUs 1] } := by
  simp [lcd_set_dc_cs, sleep_us, gpio_put_masked, emit, setLines]

theorem put_each_eq (payload rest : List Nat) :
    ∀ s : Driver, put_each (payload ++ rest) payload.length s =
      some { s with trace := s.trace ++ payload.map .put } := by
  induction payload with
  | nil => intro s; simp [put_each]
  | cons b bs ih =>
    intro s
    show put_each (bs ++ rest) bs.length (st7789_lcd_put b s) = _
    rw [ih]
    simp [st7789_lcd_put, emit]

/-- The trace of `lcd_write_cmd` on a pointer to `opcode`, `payload` and any further
bytes, with `count = 1 + payload length`. -/
theorem lcd_write_cmd_eq (cfg : Config) (opcode : Nat) (payload rest : List Nat) (s : Driver) :
    lcd_write_cmd cfg (opcode :: (payload ++ rest)) (1 + payload.length) s =
      some { s with trace := s.trace ++ specWriteCommand cfg opcode payload } := by
  cases payload with
  | nil =>
    simp [lcd_write_cmd, specWriteCommand, lcd_set_dc_cs_eq, st7789_lcd_wait_idle,
      st7789_lcd_put, emit]
  | cons b bs =>
    have hcount : 1 + (b :: bs).length ≥ 2 := by simp; omega
    have hsub : 1 + (b :: bs).length - 1 = (b :: bs).length := by omega
    simp only [lcd_write_cmd, hcount, if_true, hsub, put_each_eq, Option.map_some',
      specWriteCommand, lcd_set_dc_cs_eq, st7789_lcd_wait_idle, st7789_lcd_put, emit]
    simp

theorem bracketedFrom_puts (bytes : List Nat) (tail : List Event) :
    ∀ prev, bracketedFrom prev (bytes.map .put ++ .waitIdle :: tail) =
      bracketedFrom none (.waitIdle :: tail) := by
  induction bytes with
  | nil => intro prev; simp [bracketedFrom, Event.isLineChange]
  | cons b bs ih => intro prev; simp [bracketedFrom, Event.isLineChange, ih]

theorem putBytes_append (a b : List Event) : putBytes (a ++ b) = putBytes a ++ putBytes b := by
  induction a with
  | nil => rfl
  | cons e es ih => cases e <;> simp [putBytes, ih]

theorem putBytes_map_put (bytes : List Nat) : putBytes (bytes.map .put) = bytes := by
  induction bytes with
  | nil => rfl
  | cons b bs ih => simp [putBytes, ih]

theorem specWriteCommand_bracketed (cfg : Config) (opcode : Nat) (payload : List Nat)
    (prev : Option Event) : bracketedFrom prev (specWriteCommand cfg opcode payload) = true := by
  by_cases hp : payload = []
  · simp [specWriteCommand, hp, bracketedFrom, Event.isLineChange, setLines]
  · simp [specWriteCommand, hp, bracketedFrom, Event.isLineChange, setLines,
      bracketedFrom_puts]

theorem specWriteCommand_putBytes (cfg : Config) (opcode : Nat) (payload : List Nat) :
    putBytes (specWriteCommand cfg opcode payload) = opcode :: payload := by
  by_cases hp : payload = []
  · simp [specWriteCommand, hp, putBytes, setLines]
  · simp [specWriteCommand, hp, putBytes, setLines, putBytes_append, putBytes_map_put]

/-- C8: for every opcode and payload, `lcd_write_cmd` returns having appended exactly
this trace: wait-idle; lines (command-select 0, chip-select 0); put opcode; only if the
payload is non-empty, wait-idle, lines (1, 0), put each payload byte in order; wait-idle;
lines (1, 1). Every line-state change in it is directly preceded and followed by a 1 µs
delay, the bytes put are the opcode then the payload (`1 + payload length` of them), and
with distinct pins each masked write drives command-select and chip-select to the stated
levels and no other line. -/
theorem lcd_write_cmd_trace (cfg : Config) (s : Driver) (opcode : Nat) (payload : List Nat) :
    lcd_write_cmd cfg (opcode :: payload) (1 + payload.length) s =
      some { s with trace := s.trace ++
        ([.waitIdle, .sleepUs 1, setLines cfg false false, .sleepUs 1, .put opcode]
          ++ (if payload = [] then []
              else [.waitIdle, .sleepUs 1, setLines cfg true false, .sleepUs 1]
                ++ payload.map .put)
          ++ [.waitIdle, .sleepUs 1, setLines cfg true true, .sleepUs 1]) } ∧
    (∀ prev, bracketedFrom prev (specWriteCommand cfg opcode payload) = true) ∧
    putBytes (specWriteCommand cfg opcode payload) = opcode :: payload ∧
    (putBytes (specWriteCommand cfg opcode payload)).length = 1 + payload.length ∧
    (cfg.pinDC ≠ cfg.pinCS → ∀ (l : Lines) (dc cs : Bool) (p : Nat),
      applyEvent l (setLines cfg dc cs) p =
        if p = cfg.pinDC then dc else if p = cfg.pinCS then cs else l p) := by
  refine ⟨?_, specWriteCommand_bracketed cfg opcode payload,
    specWriteCommand_putBytes cfg opcode payload, ?_,
    fun hne l dc cs p => applyEvent_setLines cfg hne l dc cs p⟩
  · have h := lcd_write_cmd_eq cfg opcode payload [] s
    rw [List.append_nil] at h
    exact h
  · rw [specWriteCommand_putBytes, List.length_cons, Nat.add_comm]

/-- The colour-mode command on the sample panel (data/command on pin 3, chip-select on
pin 2, so mask 12): lines (0, 0) is value 0, lines (1, 0) is value 8, lines (1, 1) is
value 12. -/
theorem lcd_write_cmd_colmod :
    (lcd_write_cmd panelPortrait [0x3A, 0x55] 2 sampleDriver).map (fun s => s.trace) =
      some [.waitIdle, .sleepUs 1, .gpioPutMasked 12 0, .sleepUs 1, .put 0x3A,
            .waitIdle, .sleepUs 1, .gpioPutMasked 12 8, .sleepUs 1, .put 0x55,
            .waitIdle, .sleepUs 1, .gpioPutMasked 12 12, .sleepUs 1] := by
  decide

/-! ## Init sequencer -/

/-- The loop stops at a zero length byte without touching the state. -/
theorem init_loop_sentinel (cfg : Config) (rest : List Nat) (s : Driver) :
    init_loop cfg (0 :: rest) s = some s := by
  rw [init_loop]
  simp

/-- One turn of the loop on an entry: the command is written, the delay slept, and the
loop goes on right behind the entry. -/
theorem init_loop_entry (cfg : Config) (e : InitEntry) (rest : List Nat) (s : Driver) :
    init_loop cfg (e.bytes ++ rest) s =
      init_loop cfg rest
        { s with trace := s.trace ++
          (specWriteCommand cfg e.opcode e.payload ++ [.sleepMs (e.delay * 5)]) } := by
  simp only [InitEntry.bytes, List.cons_append]
  rw [init_loop]
  have hlen : ¬ (1 + e.payload.length = 0) := by omega
  have hdrop : List.drop (1 + e.payload.length + 2)
      ((1 + e.payload.length) :: e.delay :: e.opcode :: (e.payload ++ rest)) = rest := by
    have : 1 + e.payload.length + 2 = e.payload.length + 1 + 1 + 1 := by omega
    rw [this, List.drop_succ_cons, List.drop_succ_cons, List.drop_succ_cons, List.drop_left]
  simp only [InitEntry.bytes, List.cons_append, hlen, if_false, List.drop_succ_cons,
    List.drop_zero, lcd_write_cmd_eq, hdrop, List.getElem?_cons_succ, List.getElem?_cons_zero,
    sleep_ms, emit, List.append_assoc]

/-- The loop on a well-formed table, followed by any bytes, leaves the prescribed trace. -/
theorem init_loop_table (cfg : Config) (es : List InitEntry) (rest : List Nat) :
    ∀ s : Driver, init_loop cfg (tableBytes es ++ rest) s =
      some { s with trace := s.trace ++ specInitTrace cfg es } := by
  induction es with
  | nil =>
    intro s
    simp [tableBytes, specInitTrace, init_loop_sentinel]
  | cons e es ih =>
    intro s
    have hsplit : tableBytes (e :: es) ++ rest = e.bytes ++ (tableBytes es ++ rest) := by
      simp [tableBytes]
    rw [hsplit, init_loop_entry, ih]
    simp [specInitTrace]

/-- C7: run on any well-formed table (entries `length ≥ 1, delay, opcode, length − 1
payload bytes`, ended by a zero length byte, whatever bytes follow it), the init loop
returns having issued, for each entry in table order, one `write_command` with the entry's
opcode and payload followed by a sleep of `delay × 5` ms, and nothing after the last
entry's sleep. On `[1,20,0x01, 1,10,0x11, 0]` it issues command 0x01 with no payload,
sleeps 100 ms, issues command 0x11 with no payload, sleeps 50 ms, and stops. -/
theorem init_loop_wellformed (cfg : Config) (s : Driver) (es : List InitEntry)
    (rest : List Nat) :
    init_loop cfg (es.flatMap InitEntry.bytes ++ [0] ++ rest) s =
      some { s with trace := s.trace ++
        (es.flatMap (fun e =>
          specWriteCommand cfg e.opcode e.payload ++ [.sleepMs (e.delay * 5)])) } ∧
    init_loop cfg [1, 20, 0x01, 1, 10, 0x11, 0] s =
      some { s with trace := s.trace ++
        (specWriteCommand cfg 0x01 [] ++ [.sleepMs 100]
          ++ (specWriteCommand cfg 0x11 [] ++ [.sleepMs 50])) } := by
  refine ⟨init_loop_table cfg es rest s, ?_⟩
  have h := init_loop_table cfg
    [{ delay := 20, opcode := 0x01, payload := [] },
     { delay := 10, opcode := 0x11, payload := [] }] [] s
  simpa [tableBytes, InitEntry.bytes, specInitTrace] using h

theorem toU8_hi (n : Nat) (h : n < 65536) : toU8 (n >>> 8) = n >>> 8 := by
  unfold toU8
  rw [Nat.shiftRight_eq_div_pow]
  omega

theorem toU8_lo (n : Nat) : toU8 (n &&& 0xFF) = n &&& 0xFF := by
  unfold toU8
  have h : n &&& 0xFF = n % 256 := Nat.and_pow_two_sub_one_eq_mod n 8
  rw [h]
  omega

/-- For dimensions that fit 16 bits, the built-in table is the well-formed table of its
nine entries. -/
theorem st7789_init_seq_eq (cfg : Config) (hW : cfg.width < 65536) (hH : cfg.height < 65536) :
    st7789_init_seq cfg = tableBytes (initEntries cfg) := by
  simp [st7789_init_seq, tableBytes, initEntries, InitEntry.bytes, toU8_hi _ hW, toU8_hi _ hH,
    toU8_lo]

/-- C9: for every panel width and height below 65536, the init loop on the built-in table
`st7789_init_seq` returns having issued exactly nine commands, in this order: 0x01 (soft
reset), 0x11 (exit sleep), 0x3A with payload 0x55 (16-bit colour), 0x36 (traversal order),
0x2A (column address set), 0x2B (row address set), 0x21 (inversion on), 0x13 (normal
display mode), 0x29 (display on), each followed by a sleep of its table delay times 5 ms
(100, 50, 10, 0, 0, 0, 10, 10, 10). -/
theorem init_loop_builtin (cfg : Config) (s : Driver)
    (hW : cfg.width < 65536) (hH : cfg.height < 65536) :
    init_loop cfg (st7789_init_seq cfg) s =
      some { s with trace := s.trace ++
        (specWriteCommand cfg 0x01 [] ++ [.sleepMs 100]
          ++ (specWriteCommand cfg 0x11 [] ++ [.sleepMs 50])
          ++ (specWriteCommand cfg 0x3A [0x55] ++ [.sleepMs 10])
          ++ (specWriteCommand cfg 0x36 [0x00] ++ [.sleepMs 0])
          ++ (specWriteCommand cfg 0x2A [0x00, 0x00, cfg.width >>> 8, cfg.width &&& 0xFF]
                ++ [.sleepMs 0])
          ++ (specWriteCommand cfg 0x2B [0x00, 0x00, cfg.height >>> 8, cfg.height &&& 0xFF]
                ++ [.sleepMs 0])
          ++ (specWriteCommand cfg 0x21 [] ++ [.sleepMs 10])
          ++ (specWriteCommand cfg 0x13 [] ++ [.sleepMs 10])
          ++ (specWriteCommand cfg 0x29 [] ++ [.sleepMs 10])) } := by
  have h := init_loop_table cfg (initEntries cfg) [] s
  rw [List.append_nil, ← st7789_init_seq_eq cfg hW hH] at h
  rw [h]
  simp [specInitTrace, initEntries]

theorem init_loop_builtin_witness :
    (init_loop panel240x320 (st7789_init_seq panel240x320) sampleDriver).map
        (fun s => putBytes s.trace) =
      some [0x01, 0x11, 0x3A, 0x55, 0x36, 0x00, 0x2A, 0x00, 0x00, 0x00, 0xF0,
            0x2B, 0x00, 0x00, 0x01, 0x40, 0x21, 0x13, 0x29] ∧
    (init_loop panel240x320 (st7789_init_seq panel240x320) sampleDriver).map
        (fun s => s.trace.filter fun e => e matches .sleepMs _) =
      some [.sleepMs 100, .sleepMs 50, .sleepMs 10, .sleepMs 0, .sleepMs 0, .sleepMs 0,
            .sleepMs 10, .sleepMs 10, .sleepMs 10] := by
  rw [init_loop_builtin panel240x320 sampleDriver (by decide) (by decide)]
  constructor <;> decide

/-! ## Frame push -/

theorem st7789_start_pixels_eq (cfg : Config) (s : Driver) :
    st7789_start_pixels cfg s =
      some { s with trace := s.trace ++
        (specWriteCommand cfg 0x2C [] ++ [.sleepUs 1, setLines cfg true false, .sleepUs 1]) } := by
  have h := lcd_write_cmd_eq cfg 0x2C [] [] s
  simp only [List.append_nil, List.length_nil, Nat.add_zero] at h
  simp [st7789_start_pixels, h, lcd_set_dc_cs_eq]

/-- One row of `st7789_lcd_push_fb`: the inner loop puts the bytes of row `y`. -/
theorem push_row (cfg : Config) (hW : cfg.width < 65536) (fuel : Nat) (hf : cfg.width < fuel)
    (y : Nat) (s : Driver) :
    forU16 cfg.width
        (fun x s =>
          let color := s.framebuffer y x
          let s := st7789_lcd_put (color >>> 8) s
          some (st7789_lcd_put (color &&& 0xFF) s))
        fuel 0 s
      = some { s with trace := s.trace ++ (rowBytes cfg s.framebuffer y).map .put } := by
  have hloop := forU16_rule
    (fun x (t : Driver) => t = { s with trace := s.trace ++
      ((List.range x).flatMap fun x => pixelBytes (s.framebuffer y x)).map .put })
    cfg.width
    (fun x s =>
      let color := s.framebuffer y x
      let s := st7789_lcd_put (color >>> 8) s
      some (st7789_lcd_put (color &&& 0xFF) s))
    hW
    (by
      intro j t _ hinv
      subst hinv
      refine ⟨_, rfl, ?_⟩
      simp [st7789_lcd_put, emit, List.range_succ, List.flatMap_append, pixelBytes])
    fuel 0 s (Nat.zero_le _) (by omega) (by simp)
  obtain ⟨s', hs', hinv⟩ := hloop
  rw [hs', hinv]
  rfl

/-- The whole of `st7789_lcd_push_fb`: the RAMWR command with no payload, the switch to
data mode with the chip selected, then the frame's bytes; the framebuffer is not written. -/
theorem push_fb_eq (cfg : Config) (hW : cfg.width < 65536) (hH : cfg.height < 65536)
    (fuel : Nat) (hfW : cfg.width < fuel) (hfH : cfg.height < fuel) (s : Driver) :
    st7789_lcd_push_fb cfg fuel s =
      some { s with trace := s.trace ++
        (specWriteCommand cfg 0x2C [] ++ [.sleepUs 1, setLines cfg true false, .sleepUs 1]
          ++ (frameBytes cfg s.framebuffer).map .put) } := by
  have hrows : ∀ s1 : Driver,
      forU16 cfg.height
        (fun y s =>
          forU16 cfg.width
            (fun x s =>
              let color := s.framebuffer y x
              let s := st7789_lcd_put (color >>> 8) s
              some (st7789_lcd_put (color &&& 0xFF) s))
            fuel 0 s)
        fuel 0 s1
      = some { s1 with trace := s1.trace ++ (frameBytes cfg s1.framebuffer).map .put } := by
    intro s1
    have hloop := forU16_rule
      (fun y (t : Driver) => t = { s1 with trace := s1.trace ++
        ((List.range y).flatMap (rowBytes cfg s1.framebuffer)).map .put })
      cfg.height
      (fun y s =>
        forU16 cfg.width
          (fun x s =>
            let color := s.framebuffer y x
            let s := st7789_lcd_put (color >>> 8) s
            some (st7789_lcd_put (color &&& 0xFF) s))
          fuel 0 s)
      hH
      (by
        intro j t _ hinv
        subst hinv
        refine ⟨_, push_row cfg hW fuel hfW j _, ?_⟩
        simp [List.range_succ, List.flatMap_append])
      fuel 0 s1 (Nat.zero_le _) (by omega) (by simp)
    obtain ⟨s', hs', hinv⟩ := hloop
    rw [hs', hinv]
    rfl
  simp only [st7789_lcd_push_fb, st7789_start_pixels_eq, Option.some_bind, hrows]
  simp

theorem rowBytes_length (cfg : Config) (fb : Framebuffer) (y : Nat) :
    (rowBytes cfg fb y).length = cfg.width * 2 := by
  unfold rowBytes
  induction cfg.width with
  | zero => simp
  | succ n ih =>
    rw [List.range_succ, List.flatMap_append, List.length_append, ih]
    simp only [List.flatMap_singleton, pixelBytes, List.length_cons, List.length_nil]
    omega

theorem frameBytes_length (cfg : Config) (fb : Framebuffer) :
    (frameBytes cfg fb).length = cfg.width * cfg.height * 2 := by
  unfold frameBytes
  induction cfg.height with
  | zero => simp
  | succ n ih =>
    simp only [List.range_succ, List.flatMap_append, List.length_append, ih,
      List.flatMap_singleton, rowBytes_length]
    ring

/-- C5: for every state, `st7789_lcd_push_fb` returns (given a loop budget above the panel
dimensions, which fit the 16-bit loop counters) having put exactly
`width * height * 2 + 1` bytes on the serial channel: first the memory-write opcode 0x2C,
then for each cell in row-major order (`y` from 0 to `height-1`, within it `x` from 0 to
`width-1`) the pixel's high byte `color >> 8` followed by its low byte `color & 0xFF`. -/
theorem push_fb_bytes (cfg : Config) (hW : cfg.width < 65536) (hH : cfg.height < 65536)
    (fuel : Nat) (hfW : cfg.width < fuel) (hfH : cfg.height < fuel) (s : Driver) :
    ∃ evs, st7789_lcd_push_fb cfg fuel s = some { s with trace := s.trace ++ evs } ∧
      putBytes evs = 0x2C ::
        (List.range cfg.height).flatMap (fun y =>
          (List.range cfg.width).flatMap (fun x =>
            [s.framebuffer y x >>> 8, s.framebuffer y x &&& 0xFF])) ∧
      (putBytes evs).length = cfg.width * cfg.height * 2 + 1 := by
  have hbytes : putBytes
      (specWriteCommand cfg 0x2C [] ++ [.sleepUs 1, setLines cfg true false, .sleepUs 1]
        ++ (frameBytes cfg s.framebuffer).map .put) = 0x2C :: frameBytes cfg s.framebuffer := by
    simp [putBytes_append, specWriteCommand_putBytes, putBytes_map_put, putBytes, setLines]
  refine ⟨_, push_fb_eq cfg hW hH fuel hfW hfH s, ?_, ?_⟩
  · rw [hbytes]
    rfl
  · rw [hbytes, List.length_cons, frameBytes_length]

theorem push_fb_bytes_witness :
    (st7789_lcd_push_fb panelPortrait 5 sampleDriver).map (fun s => putBytes s.trace) =
      some [0x2C,
        0x12, 0x00, 0x12, 0x01, 0x12, 0x02,
        0x12, 0x10, 0x12, 0x11, 0x12, 0x12,
        0x12, 0x20, 0x12, 0x21, 0x12, 0x22,
        0x12, 0x30, 0x12, 0x31, 0x12, 0x32] := by
  obtain ⟨evs, hrun, hbytes, _⟩ := push_fb_bytes panelPortrait (by decide) (by decide) 5
    (by decide) (by decide) sampleDriver
  rw [hrun, Option.map_some']
  show some (putBytes ([] ++ evs)) = _
  rw [List.nil_append, hbytes]
  decide

/-! ## Address windows of the built-in table -/

/-- The end address bytes of the two window entries spell the dimension itself. -/
theorem beU16_hi_lo (n : Nat) : beU16 (n >>> 8) (n &&& 0xFF) = n := by
  unfold beU16
  have h : n &&& 0xFF = n % 256 := Nat.and_pow_two_sub_one_eq_mod n 8
  rw [h, Nat.shiftRight_eq_div_pow]
  omega

/-- For dimensions that fit 16 bits, the two window entries of the built-in table carry
start address 0 and, as end address, the width and the height. -/
theorem init_seq_windows (cfg : Config) (hW : cfg.width < 65536) (hH : cfg.height < 65536) :
    ((st7789_init_seq cfg).drop 14).take 7 =
      [5, 0, 0x2A, 0x00, 0x00, cfg.width >>> 8, cfg.width &&& 0xFF] ∧
    ((st7789_init_seq cfg).drop 21).take 7 =
      [5, 0, 0x2B, 0x00, 0x00, cfg.height >>> 8, cfg.height &&& 0xFF] ∧
    beU16 (cfg.width >>> 8) (cfg.width &&& 0xFF) = cfg.width ∧
    beU16 (cfg.height >>> 8) (cfg.height &&& 0xFF) = cfg.height := by
  refine ⟨?_, ?_, beU16_hi_lo _, beU16_hi_lo _⟩ <;>
    simp [st7789_init_seq, toU8_hi _ hW, toU8_hi _ hH, toU8_lo]

/-- C10 (the code at a 240 x 320 panel): the 0x2A entry of `st7789_init_seq` is
`5, 0, 0x2A, 0x00, 0x00, 0x00, 0xF0` and the 0x2B entry is
`5, 0, 0x2B, 0x00, 0x00, 0x01, 0x40`: the start addresses are 0, and the end addresses
read 240 and 320, the width and the height themselves, not the last column 239 and the
last row 319. -/
theorem init_seq_window_end_240x320 :
    ((st7789_init_seq panel240x320).drop 14).take 7 = [5, 0, 0x2A, 0x00, 0x00, 0x00, 0xF0] ∧
    ((st7789_init_seq panel240x320).drop 21).take 7 = [5, 0, 0x2B, 0x00, 0x00, 0x01, 0x40] ∧
    beU16 0x00 0x00 = 0 ∧
    beU16 0x00 0xF0 = panel240x320.width ∧
    beU16 0x01 0x40 = panel240x320.height ∧
    beU16 0x00 0xF0 ≠ panel240x320.width - 1 ∧
    beU16 0x01 0x40 ≠ panel240x320.height - 1 := by
  decide

/-! ## Backlight -/

theorem linesAfter_append (l : Lines) (a b : List Event) :
    linesAfter l (a ++ b) = linesAfter (linesAfter l a) b := by
  simp [linesAfter, List.foldl_append]

/-- C13: backlight control is idempotent. From every line state and driver state, the
lines after two calls of `st7789_bl_on` are the lines after one call: the backlight line
high and every other line as it was; the same holds for `st7789_bl_off` with the backlight
line low. -/
theorem bl_idempotent (cfg : Config) (l : Lines) (s : Driver) :
    (linesAfter l (st7789_bl_on cfg (st7789_bl_on cfg s)).trace
        = linesAfter l (st7789_bl_on cfg s).trace ∧
      ∀ p, linesAfter l (st7789_bl_on cfg s).trace p
        = if p = cfg.pinBL then true else linesAfter l s.trace p) ∧
    (linesAfter l (st7789_bl_off cfg (st7789_bl_off cfg s)).trace
        = linesAfter l (st7789_bl_off cfg s).trace ∧
      ∀ p, linesAfter l (st7789_bl_off cfg s).trace p
        = if p = cfg.pinBL then false else linesAfter l s.trace p) := by
  refine ⟨⟨?_, ?_⟩, ⟨?_, ?_⟩⟩
  · funext p
    simp only [st7789_bl_on, gpio_put, emit, linesAfter_append]
    simp only [linesAfter, List.foldl_cons, List.foldl_nil, applyEvent]
    split_ifs <;> rfl
  · intro p
    simp only [st7789_bl_on, gpio_put, emit, linesAfter_append]
    simp only [linesAfter, List.foldl_cons, List.foldl_nil, applyEvent]
  · funext p
    simp only [st7789_bl_off, gpio_put, emit, linesAfter_append]
    simp only [linesAfter, List.foldl_cons, List.foldl_nil, applyEvent]
    split_ifs <;> rfl
  · intro p
    simp only [st7789_bl_off, gpio_put, emit, linesAfter_append]
    simp only [linesAfter, List.foldl_cons, List.foldl_nil, applyEvent]

/-- The backlight on pin 5 of the sample panel, switched on twice and off twice, starting
with every line low. -/
theorem bl_sample :
    linesAfter (fun _ => false)
        (st7789_bl_on panelPortrait (st7789_bl_on panelPortrait sampleDriver)).trace 5 = true ∧
    linesAfter (fun _ => false)
        (st7789_bl_on panelPortrait (st7789_bl_on panelPortrait sampleDriver)).trace 4 = false ∧
    linesAfter (fun _ => true)
        (st7789_bl_off panelPortrait (st7789_bl_off panelPortrait sampleDriver)).trace 5
          = false := by
  decide

/-! ## Range of the framebuffer store -/

/-- C16: for panel dimensions that fit 16 bits (in particular every width and height in
1..65535), in each of the four orientation/mirror configurations, every `(x, y)` that
passes the bound check of `st7789_fb_put` is stored at a row index below the height and a
column index below the width, and the subtraction made for the active mirror setting
(`width-1-x` and `height-1-y`, `width-1-y`, or `height-1-x`) yields a value in
`0 .. 65535`, which the conversion to `uint16_t` leaves as it is. -/
theorem fb_put_in_range (cfg : Config) (hW : cfg.width < 65536) (hH : cfg.height < 65536)
    (x y r k : Nat) (h : fb_cell cfg x y = some (r, k)) :
    (r < cfg.height ∧ k < cfg.width) ∧
    (cfg.orientation = .portrait → cfg.mirrorFlip = true →
      0 ≤ (st7789_get_width cfg : Int) - x - 1 ∧ (st7789_get_width cfg : Int) - x - 1 < 65536 ∧
      0 ≤ (st7789_get_height cfg : Int) - y - 1 ∧ (st7789_get_height cfg : Int) - y - 1 < 65536 ∧
      (toU16 ((st7789_get_width cfg : Int) - x - 1) : Int) = (cfg.width : Int) - 1 - x ∧
      (toU16 ((st7789_get_height cfg : Int) - y - 1) : Int) = (cfg.height : Int) - 1 - y) ∧
    (cfg.orientation = .landscape → cfg.mirrorFlip = true →
      0 ≤ (st7789_get_width cfg : Int) - y - 1 ∧ (st7789_get_width cfg : Int) - y - 1 < 65536 ∧
      (toU16 ((st7789_get_width cfg : Int) - y - 1) : Int) = (cfg.width : Int) - 1 - y) ∧
    (cfg.orientation = .landscape → cfg.mirrorFlip = false →
      0 ≤ (st7789_get_height cfg : Int) - x - 1 ∧ (st7789_get_height cfg : Int) - x - 1 < 65536 ∧
      (toU16 ((st7789_get_height cfg : Int) - x - 1) : Int) = (cfg.height : Int) - 1 - x) := by
  have hcases := fb_cell_eq_some cfg hW hH x y (r, k) h
  refine ⟨?_, ?_, ?_, ?_⟩
  · rcases hcases with ⟨_, hx, hy, hc⟩ | ⟨_, hx, hy, hc⟩ <;>
      cases hm : cfg.mirrorFlip <;> simp [hm] at hc <;> omega
  · intro ho _
    rcases hcases with ⟨_, hx, hy, _⟩ | ⟨ho', _⟩
    · unfold toU16 st7789_get_width st7789_get_height
      omega
    · rw [ho] at ho'; cases ho'
  · intro ho _
    rcases hcases with ⟨ho', _⟩ | ⟨_, hx, hy, _⟩
    · rw [ho] at ho'; cases ho'
    · unfold toU16 st7789_get_width
      omega
  · intro ho _
    rcases hcases with ⟨ho', _⟩ | ⟨_, hx, hy, _⟩
    · rw [ho] at ho'; cases ho'
    · unfold toU16 st7789_get_height
      omega

theorem fb_put_in_range_witness :
    fb_cell { panelPortrait with mirrorFlip := true } 2 3 = some (0, 0) ∧
    (0 < panelPortrait.height ∧ 0 < panelPortrait.width) ∧
    (toU16 ((st7789_get_width { panelPortrait with mirrorFlip := true } : Int) - 2 - 1) : Int)
      = 0 :=
  ⟨by decide,
   (fb_put_in_range { panelPortrait with mirrorFlip := true } (by decide) (by decide)
      2 3 0 0 (by decide)).1,
   by decide⟩

/-! ## Line levels along the traces -/

theorem linesAfter_cons (l : Lines) (e : Event) (evs : List Event) :
    linesAfter l (e :: evs) = linesAfter (applyEvent l e) evs := rfl

theorem linesAfter_nil (l : Lines) : linesAfter l [] = l := rfl

theorem applyEvent_waitIdle (l : Lines) : applyEvent l .waitIdle = l := rfl

theorem applyEvent_sleepUs (l : Lines) (n : Nat) : applyEvent l (.sleepUs n) = l := rfl

theorem applyEvent_sleepMs (l : Lines) (n : Nat) : applyEvent l (.sleepMs n) = l := rfl

theorem applyEvent_put (l : Lines) (b : Nat) : applyEvent l (.put b) = l := rfl

theorem linesAfter_puts (l : Lines) (bytes : List Nat) :
    linesAfter l (bytes.map .put) = l := by
  induction bytes with
  | nil => rfl
  | cons b bs ih => simpa [linesAfter_cons, applyEvent] using ih

/-- With distinct pins, the lines after one masked write of `setLines`, as a whole. -/
theorem applyEvent_setLines_fun (cfg : Config) (hne : cfg.pinDC ≠ cfg.pinCS) (l : Lines)
    (dc cs : Bool) :
    applyEvent l (setLines cfg dc cs) =
      fun p => if p = cfg.pinDC then dc else if p = cfg.pinCS then cs else l p :=
  funext fun p => applyEvent_setLines cfg hne l dc cs p

/-- A masked write of `setLines` leaves every line other than the two it drives alone,
whatever the pins. -/
theorem applyEvent_setLines_other (cfg : Config) (l : Lines) (dc cs : Bool) (p : Nat)
    (h1 : p ≠ cfg.pinDC) (h2 : p ≠ cfg.pinCS) :
    applyEvent l (setLines cfg dc cs) p = l p := by
  have hone : ∀ a : Nat, ((1 : Nat) <<< a).testBit p = decide (a = p) := by
    intro a
    simp [Nat.one_shiftLeft, Nat.testBit_two_pow]
  simp [setLines, applyEvent, Nat.testBit_or, hone, Ne.symm h1, Ne.symm h2]

/-- With distinct pins, a complete `write_command` trace leaves command-select and
chip-select high and every other line as it was. -/
theorem linesAfter_specWriteCommand (cfg : Config) (hne : cfg.pinDC ≠ cfg.pinCS) (l : Lines)
    (opcode : Nat) (payload : List Nat) :
    linesAfter l (specWriteCommand cfg opcode payload) =
      fun p => if p = cfg.pinDC then true else if p = cfg.pinCS then true else l p := by
  funext p
  by_cases hp : payload = []
  · simp only [specWriteCommand, hp, if_true, List.append_nil, List.cons_append,
      List.nil_append, linesAfter_cons, linesAfter_nil, applyEvent_waitIdle,
      applyEvent_sleepUs, applyEvent_put, applyEvent_setLines_fun cfg hne]
    split_ifs <;> rfl
  · simp only [specWriteCommand, hp, if_false, List.cons_append, List.nil_append,
      List.append_assoc, linesAfter_cons, linesAfter_append, linesAfter_puts,
      linesAfter_nil, applyEvent_waitIdle, applyEvent_sleepUs, applyEvent_put,
      applyEvent_setLines_fun cfg hne]
    split_ifs <;> rfl

/-- A complete `write_command` trace leaves every line other than command-select and
chip-select as it was, whatever the pins. -/
theorem linesAfter_specWriteCommand_other (cfg : Config) (l : Lines)
    (opcode : Nat) (payload : List Nat) (p : Nat) (h1 : p ≠ cfg.pinDC) (h2 : p ≠ cfg.pinCS) :
    linesAfter l (specWriteCommand cfg opcode payload) p = l p := by
  by_cases hp : payload = []
  · simp only [specWriteCommand, hp, if_true, List.append_nil, List.cons_append,
      List.nil_append, linesAfter_cons, linesAfter_nil, applyEvent_waitIdle,
      applyEvent_sleepUs, applyEvent_put]
    rw [applyEvent_setLines_other cfg _ _ _ p h1 h2,
      applyEvent_setLines_other cfg _ _ _ p h1 h2]
  · simp only [specWriteCommand, hp, if_false, List.cons_append, List.nil_append,
      List.append_assoc, linesAfter_cons, linesAfter_append, linesAfter_puts,
      linesAfter_nil, applyEvent_waitIdle, applyEvent_sleepUs, applyEvent_put]
    rw [applyEvent_setLines_other cfg _ _ _ p h1 h2,
      applyEvent_setLines_other cfg _ _ _ p h1 h2,
      applyEvent_setLines_other cfg _ _ _ p h1 h2]

/-- C14: `st7789_lcd_push_fb` returns (given a loop budget above the panel dimensions,
which fit the 16-bit loop counters) with this trace: the complete `lcd_write_cmd` trace for
opcode 0x2C with an empty payload, which ends with command-select = 1 and chip-select = 1;
then one line change to command-select = 1, chip-select = 0; then the
`width * height * 2` pixel bytes, each a put and nothing else, so without a line change or
a wait-idle among them; the lines are command-select = 1, chip-select = 0 when push
returns (pins distinct). -/
theorem push_fb_line_trace (cfg : Config) (hW : cfg.width < 65536) (hH : cfg.height < 65536)
    (fuel : Nat) (hfW : cfg.width < fuel) (hfH : cfg.height < fuel) (hne : cfg.pinDC ≠ cfg.pinCS)
    (s : Driver) (l : Lines) :
    lcd_write_cmd cfg [0x2C] 1 s =
      some { s with trace := s.trace ++
        [.waitIdle, .sleepUs 1, setLines cfg false false, .sleepUs 1, .put 0x2C,
         .waitIdle, .sleepUs 1, setLines cfg true true, .sleepUs 1] } ∧
    st7789_lcd_push_fb cfg fuel s =
      some { s with trace := s.trace ++
        ([.waitIdle, .sleepUs 1, setLines cfg false false, .sleepUs 1, .put 0x2C,
          .waitIdle, .sleepUs 1, setLines cfg true true, .sleepUs 1]
          ++ [.sleepUs 1, setLines cfg true false, .sleepUs 1]
          ++ (frameBytes cfg s.framebuffer).map .put) } ∧
    (frameBytes cfg s.framebuffer).length = cfg.width * cfg.height * 2 ∧
    (linesAfter l
        [.waitIdle, .sleepUs 1, setLines cfg false false, .sleepUs 1, .put 0x2C,
         .waitIdle, .sleepUs 1, setLines cfg true true, .sleepUs 1] cfg.pinDC = true ∧
      linesAfter l
        [.waitIdle, .sleepUs 1, setLines cfg false false, .sleepUs 1, .put 0x2C,
         .waitIdle, .sleepUs 1, setLines cfg true true, .sleepUs 1] cfg.pinCS = true) ∧
    (linesAfter l
        ([.waitIdle, .sleepUs 1, setLines cfg false false, .sleepUs 1, .put 0x2C,
          .waitIdle, .sleepUs 1, setLines cfg true true, .sleepUs 1]
          ++ [.sleepUs 1, setLines cfg true false, .sleepUs 1]
          ++ (frameBytes cfg s.framebuffer).map .put) cfg.pinDC = true ∧
      linesAfter l
        ([.waitIdle, .sleepUs 1, setLines cfg false false, .sleepUs 1, .put 0x2C,
          .waitIdle, .sleepUs 1, setLines cfg true true, .sleepUs 1]
          ++ [.sleepUs 1, setLines cfg true false, .sleepUs 1]
          ++ (frameBytes cfg s.framebuffer).map .put) cfg.pinCS = false) := by
  have hcmd : specWriteCommand cfg 0x2C [] =
      [.waitIdle, .sleepUs 1, setLines cfg false false, .sleepUs 1, .put 0x2C,
       .waitIdle, .sleepUs 1, setLines cfg true true, .sleepUs 1] := by
    simp [specWriteCommand]
  have hwrite := lcd_write_cmd_eq cfg 0x2C [] [] s
  simp only [List.append_nil, List.length_nil, Nat.add_zero, hcmd] at hwrite
  have hpush := push_fb_eq cfg hW hH fuel hfW hfH s
  rw [hcmd] at hpush
  have hl1 := linesAfter_specWriteCommand cfg hne l 0x2C []
  rw [hcmd] at hl1
  have hne' : cfg.pinCS ≠ cfg.pinDC := Ne.symm hne
  refine ⟨hwrite, hpush, frameBytes_length cfg _, ⟨?_, ?_⟩, ⟨?_, ?_⟩⟩
  · rw [hl1]; simp
  · rw [hl1]; simp
  · rw [linesAfter_append, linesAfter_puts, linesAfter_append, hl1]
    simp only [linesAfter_cons, linesAfter_nil, applyEvent_sleepUs,
      applyEvent_setLines_fun cfg hne]
    simp
  · rw [linesAfter_append, linesAfter_puts, linesAfter_append, hl1]
    simp only [linesAfter_cons, linesAfter_nil, applyEvent_sleepUs,
      applyEvent_setLines_fun cfg hne]
    simp [hne']

theorem push_fb_line_trace_witness :
    (st7789_lcd_push_fb { panelPortrait with width := 1, height := 1 } 2 sampleDriver).map
        (fun s => s.trace) =
      some [.waitIdle, .sleepUs 1, .gpioPutMasked 12 0, .sleepUs 1, .put 0x2C,
            .waitIdle, .sleepUs 1, .gpioPutMasked 12 12, .sleepUs 1,
            .sleepUs 1, .gpioPutMasked 12 8, .sleepUs 1,
            .put 0x12, .put 0x00] := by
  rw [(push_fb_line_trace { panelPortrait with width := 1, height := 1 } (by decide) (by decide)
    2 (by decide) (by decide) (by decide) sampleDriver (fun _ => false)).2.1]
  decide

/-! ## Reading a frame back from the wire -/

theorem recombine_pixel (c : Nat) : ((c >>> 8) <<< 8) ||| (c &&& 0xFF) = c := by
  have h : c &&& 0xFF = c % 256 := Nat.and_pow_two_sub_one_eq_mod c 8
  have hlt : c &&& 0xFF < 2 ^ 8 := by rw [h]; omega
  have hor := Nat.mul_add_lt_is_or hlt (c >>> 8)
  rw [Nat.shiftLeft_eq, Nat.mul_comm, ← hor, h, Nat.shiftRight_eq_div_pow]
  omega

theorem decodePixels_pixel (c : Nat) (rest : List Nat) :
    decodePixels (pixelBytes c ++ rest) = c :: decodePixels rest := by
  simp [pixelBytes, decodePixels, recombine_pixel]

theorem decodePixels_row (f : Nat → Nat) (xs : List Nat) (rest : List Nat) :
    decodePixels (xs.flatMap (fun x => pixelBytes (f x)) ++ rest) =
      xs.map f ++ decodePixels rest := by
  induction xs with
  | nil => simp
  | cons x xs ih =>
    rw [List.flatMap_cons, List.append_assoc, decodePixels_pixel, ih, List.map_cons,
      List.cons_append]

theorem decodePixels_rows (cfg : Config) (fb : Framebuffer) (ys : List Nat) (rest : List Nat) :
    decodePixels (ys.flatMap (rowBytes cfg fb) ++ rest) =
      ys.flatMap (fun y => (List.range cfg.width).map (fb y)) ++ decodePixels rest := by
  induction ys with
  | nil => simp
  | cons y ys ih =>
    simp only [List.flatMap_cons, List.append_assoc]
    rw [rowBytes, decodePixels_row (fb y), ih]

/-- Decoding the bytes of a frame gives back the cells in raster order. -/
theorem decodePixels_frameBytes (cfg : Config) (fb : Framebuffer) :
    decodePixels (frameBytes cfg fb) =
      (List.range cfg.height).flatMap (fun y => (List.range cfg.width).map (fb y)) := by
  have h := decodePixels_rows cfg fb (List.range cfg.height) []
  simpa [frameBytes, decodePixels] using h

theorem grid_length (W : Nat) (f : Nat → Nat → Nat) (H : Nat) :
    ((List.range H).flatMap (fun y => (List.range W).map (f y))).length = H * W := by
  induction H with
  | zero => simp
  | succ n ih =>
    rw [List.range_succ, List.flatMap_append, List.length_append, ih]
    simp [Nat.succ_mul]

/-- Cell `(y, x)` sits at position `y * width + x` of the raster. -/
theorem grid_getElem (W : Nat) (f : Nat → Nat → Nat) :
    ∀ H y x, y < H → x < W →
      ((List.range H).flatMap (fun y => (List.range W).map (f y)))[y * W + x]? = some (f y x) := by
  intro H
  induction H with
  | zero => intro y x hy; omega
  | succ n ih =>
    intro y x hy hx
    rw [List.range_succ, List.flatMap_append]
    by_cases hyn : y < n
    · have hlt : y * W + x < n * W := by
        have : (y + 1) * W ≤ n * W := Nat.mul_le_mul_right W hyn
        rw [Nat.succ_mul] at this
        omega
      rw [List.getElem?_append_left (by rw [grid_length]; exact hlt)]
      exact ih y x hyn hx
    · have hy' : y = n := by omega
      subst hy'
      rw [List.getElem?_append_right (by rw [grid_length]; omega), grid_length]
      simp [List.getElem?_map, List.getElem?_range hx]

/-- The bytes put by one push: the opcode, then the frame. -/
theorem pushStream_eq (cfg : Config) (hW : cfg.width < 65536) (hH : cfg.height < 65536)
    (fuel : Nat) (hfW : cfg.width < fuel) (hfH : cfg.height < fuel) (s : Driver) :
    pushStream cfg fuel s = some (0x2C :: frameBytes cfg s.framebuffer) := by
  simp [pushStream, push_fb_eq cfg hW hH fuel hfW hfH s, putBytes_append,
    specWriteCommand_putBytes, putBytes_map_put, putBytes, setLines]


/-- C18: the byte stream of `st7789_lcd_push_fb` determines the framebuffer. The stream
starts with the opcode; dropping that byte and recombining consecutive byte pairs as
`(high << 8) | low` gives, at position `y * width + x`, exactly cell `[y][x]`, for every
`y < height`, `x < width`; so two states whose pushes put the same stream agree on every
cell of the array. Push returns with the framebuffer as it was, and a second push right
after the first puts the same stream. -/
theorem push_stream_determines_fb (cfg : Config)
    (hW : cfg.width < 65536) (hH : cfg.height < 65536)
    (fuel : Nat) (hfW : cfg.width < fuel) (hfH : cfg.height < fuel) (s t : Driver) :
    (∃ bs, pushStream cfg fuel s = some bs ∧ bs.head? = some 0x2C ∧
      ∀ y x, y < cfg.height → x < cfg.width →
        (decodePixels (bs.drop 1))[y * cfg.width + x]? = some (s.framebuffer y x)) ∧
    (pushStream cfg fuel s = pushStream cfg fuel t →
      ∀ y x, y < cfg.height → x < cfg.width → s.framebuffer y x = t.framebuffer y x) ∧
    (∃ s1 s2, st7789_lcd_push_fb cfg fuel s = some s1 ∧ s1.framebuffer = s.framebuffer ∧
      st7789_lcd_push_fb cfg fuel s1 = some s2 ∧ s2.framebuffer = s.framebuffer ∧
      pushStream cfg fuel s1 = pushStream cfg fuel s) := by
  have hdecode : ∀ (u : Driver) y x, y < cfg.height → x < cfg.width →
      (decodePixels ((0x2C :: frameBytes cfg u.framebuffer).drop 1))[y * cfg.width + x]?
        = some (u.framebuffer y x) := by
    intro u y x hy hx
    rw [List.drop_succ_cons, List.drop_zero, decodePixels_frameBytes]
    exact grid_getElem cfg.width u.framebuffer cfg.height y x hy hx
  refine ⟨⟨_, pushStream_eq cfg hW hH fuel hfW hfH s, rfl, hdecode s⟩, ?_, ?_⟩
  · intro heq y x hy hx
    rw [pushStream_eq cfg hW hH fuel hfW hfH s, pushStream_eq cfg hW hH fuel hfW hfH t] at heq
    have hbs := Option.some.inj heq
    have h1 := hdecode s y x hy hx
    rw [hbs, hdecode t y x hy hx] at h1
    exact (Option.some.inj h1).symm
  · refine ⟨_, _, push_fb_eq cfg hW hH fuel hfW hfH s, rfl,
      push_fb_eq cfg hW hH fuel hfW hfH _, rfl, ?_⟩
    rw [pushStream_eq cfg hW hH fuel hfW hfH, pushStream_eq cfg hW hH fuel hfW hfH]

theorem push_stream_determines_fb_witness :
    pushStream panelPortrait 5 sampleDriver =
      some [0x2C,
        0x12, 0x00, 0x12, 0x01, 0x12, 0x02,
        0x12, 0x10, 0x12, 0x11, 0x12, 0x12,
        0x12, 0x20, 0x12, 0x21, 0x12, 0x22,
        0x12, 0x30, 0x12, 0x31, 0x12, 0x32] ∧
    (decodePixels
      [0x12, 0x00, 0x12, 0x01, 0x12, 0x02,
       0x12, 0x10, 0x12, 0x11, 0x12, 0x12,
       0x12, 0x20, 0x12, 0x21, 0x12, 0x22,
       0x12, 0x30, 0x12, 0x31, 0x12, 0x32])[3 * 3 + 2]? = some (sampleDriver.framebuffer 3 2) := by
  obtain ⟨bs, hbs, _, hcell⟩ := (push_stream_determines_fb panelPortrait (by decide) (by decide)
    5 (by decide) (by decide) sampleDriver sampleDriver).1
  have hval : bs = [0x2C,
        0x12, 0x00, 0x12, 0x01, 0x12, 0x02,
        0x12, 0x10, 0x12, 0x11, 0x12, 0x12,
        0x12, 0x20, 0x12, 0x21, 0x12, 0x22,
        0x12, 0x30, 0x12, 0x31, 0x12, 0x32] := by
    have h2 : pushStream panelPortrait 5 sampleDriver = _ := hbs
    have h3 : pushStream panelPortrait 5 sampleDriver = some [0x2C,
        0x12, 0x00, 0x12, 0x01, 0x12, 0x02,
        0x12, 0x10, 0x12, 0x11, 0x12, 0x12,
        0x12, 0x20, 0x12, 0x21, 0x12, 0x22,
        0x12, 0x30, 0x12, 0x31, 0x12, 0x32] := by decide
    rw [h3] at h2
    exact (Option.some.inj h2).symm
  refine ⟨by rw [hbs, hval], ?_⟩
  have h := hcell 3 2 (by decide) (by decide)
  rw [hval] at h
  exact h

/-! ## Sequences of framebuffer calls -/

/-- The state `st7789_fb_clear` returns, in closed form. -/
theorem fb_clear_eq (cfg : Config) (hW : cfg.width < 65536) (hH : cfg.height < 65536)
    (fuel : Nat) (hfW : cfg.width < fuel) (hfH : cfg.height < fuel) (s : Driver) :
    st7789_fb_clear cfg fuel s =
      some { s with framebuffer :=
        fun r k => if r < cfg.height ∧ k < cfg.width then 0 else s.framebuffer r k } := by
  have hloop := forU16_rule
    (fun y (t : Driver) => t.trace = s.trace ∧
      ∀ r k, t.framebuffer r k = if r < y ∧ k < cfg.width then 0 else s.framebuffer r k)
    cfg.height
    (fun y s =>
      forU16 cfg.width
        (fun x s => some { s with framebuffer := fb_store s.framebuffer y x 0 }) fuel 0 s)
    hH
    (by
      intro j t _ hinv
      obtain ⟨t', ht', htr, hfb⟩ := fb_clear_row cfg hW fuel hfW j t
      refine ⟨t', ht', htr.trans hinv.1, ?_⟩
      intro r k
      rw [hfb, hinv.2]
      split_ifs <;> first | rfl | omega)
    fuel 0 s (Nat.zero_le _) (by omega) ⟨rfl, by simp⟩
  obtain ⟨s', hs', htr, hfb⟩ := hloop
  have hs'eq : s' = { s with framebuffer :=
      fun r k => if r < cfg.height ∧ k < cfg.width then 0 else s.framebuffer r k } := by
    cases s' with
    | mk fb tr =>
      simp only at htr hfb
      simp only [Driver.mk.injEq]
      exact ⟨funext fun r => funext fun k => hfb r k, htr⟩
  rw [← hs'eq]
  exact hs'

/-- Two accepted coordinates stored at the same cell are the same coordinate. -/
theorem fb_cell_inj (cfg : Config) (hW : cfg.width < 65536) (hH : cfg.height < 65536)
    (x y x1 y1 : Nat) (cell : Nat × Nat)
    (h : fb_cell cfg x y = some cell) (h1 : fb_cell cfg x1 y1 = some cell) :
    x = x1 ∧ y = y1 := by
  rcases fb_cell_eq_some cfg hW hH x y cell h with ⟨ho, hx, hy, hc⟩ | ⟨ho, hx, hy, hc⟩ <;>
  rcases fb_cell_eq_some cfg hW hH x1 y1 cell h1 with ⟨ho1, hx1, hy1, hc1⟩ | ⟨ho1, hx1, hy1, hc1⟩
  · rw [hc] at hc1
    cases hm : cfg.mirrorFlip <;> simp [hm] at hc1 <;> omega
  · rw [ho] at ho1; cases ho1
  · rw [ho] at ho1; cases ho1
  · rw [hc] at hc1
    cases hm : cfg.mirrorFlip <;> simp [hm] at hc1 <;> omega

/-- An accepted coordinate is stored inside the array. -/
theorem fb_cell_range (cfg : Config) (hW : cfg.width < 65536) (hH : cfg.height < 65536)
    (x y r k : Nat) (h : fb_cell cfg x y = some (r, k)) : r < cfg.height ∧ k < cfg.width := by
  rcases fb_cell_eq_some cfg hW hH x y (r, k) h with ⟨_, hx, hy, hc⟩ | ⟨_, hx, hy, hc⟩ <;>
    cases hm : cfg.mirrorFlip <;> simp [hm] at hc <;> omega

/-- A put at a coordinate other than `(x, y)`, in bound or not, leaves the cell of
`(x, y)` as it was. -/
theorem fb_put_other (cfg : Config) (hW : cfg.width < 65536) (hH : cfg.height < 65536)
    (x y r k : Nat) (hcell : fb_cell cfg x y = some (r, k))
    (c x1 y1 : Nat) (hne : ¬ (x1 = x ∧ y1 = y)) (s : Driver) :
    (st7789_fb_put cfg c x1 y1 s).framebuffer r k = s.framebuffer r k := by
  cases h1 : fb_cell cfg x1 y1 with
  | none => simp [st7789_fb_put, h1]
  | some cell =>
    obtain ⟨r1, k1⟩ := cell
    rw [fb_put_at cfg s c x1 y1 r1 k1 h1]
    apply fb_store_other
    intro hrk
    apply hne
    have hsame : fb_cell cfg x1 y1 = some (r, k) := by rw [h1, hrk.1, hrk.2]
    exact fb_cell_inj cfg hW hH x1 y1 x y (r, k) hsame hcell

/-- A put at `(x, y)` leaves its colour in the cell of `(x, y)`. -/
theorem fb_put_same (cfg : Config) (x y r k : Nat) (hcell : fb_cell cfg x y = some (r, k))
    (c : Nat) (s : Driver) :
    (st7789_fb_put cfg c x y s).framebuffer r k = c := by
  rw [fb_put_at cfg s c x y r k hcell]
  exact fb_store_same _ _ _ _

/-- Running calls from a state whose cell of `(x, y)` holds `v`. -/
theorem runCalls_cell (cfg : Config) (hW : cfg.width < 65536) (hH : cfg.height < 65536)
    (fuel : Nat) (hfW : cfg.width < fuel) (hfH : cfg.height < fuel)
    (x y r k : Nat) (hcell : fb_cell cfg x y = some (r, k)) (calls : List Call) :
    ∀ (s : Driver) (v : Nat), s.framebuffer r k = v →
      ∃ s', runCalls cfg fuel calls s = some s' ∧ s'.framebuffer r k = lastPut x y calls v := by
  induction calls with
  | nil => intro s v hv; exact ⟨s, rfl, hv⟩
  | cons c rest ih =>
    intro s v hv
    cases c with
    | put color x1 y1 =>
      simp only [runCalls, runCall, Option.some_bind, lastPut]
      apply ih
      by_cases hsame : x1 = x ∧ y1 = y
      · rw [if_pos hsame, hsame.1, hsame.2]
        exact fb_put_same cfg x y r k hcell color s
      · rw [if_neg hsame, fb_put_other cfg hW hH x y r k hcell color x1 y1 hsame s]
        exact hv
    | clear =>
      simp only [runCalls, runCall, fb_clear_eq cfg hW hH fuel hfW hfH s, Option.some_bind,
        lastPut]
      apply ih
      simp [fb_cell_range cfg hW hH x y r k hcell]
    | push =>
      simp only [runCalls, runCall, push_fb_eq cfg hW hH fuel hfW hfH s, Option.some_bind,
        lastPut]
      apply ih
      exact hv

/-- C12: over any sequence of `st7789_fb_put`, `st7789_fb_clear` and `st7789_lcd_push_fb`
calls starting from a cleared framebuffer, every call returns (given a loop budget above
the panel dimensions, which fit the 16-bit loop counters) and, for each valid logical
coordinate `(x, y)`, its cell holds at the end the colour of the most recent put at
`(x, y)` issued since the most recent clear, or 0 if there was none. A put at another
coordinate, an out-of-bound put and a push each leave that cell as it was. -/
theorem fb_holds_last_put (cfg : Config) (hW : cfg.width < 65536) (hH : cfg.height < 65536)
    (fuel : Nat) (hfW : cfg.width < fuel) (hfH : cfg.height < fuel)
    (s : Driver) (hclear : ∀ r k, r < cfg.height → k < cfg.width → s.framebuffer r k = 0)
    (calls : List Call) (x y r k : Nat) (hcell : fb_cell cfg x y = some (r, k)) :
    (∃ s', runCalls cfg fuel calls s = some s' ∧ s'.framebuffer r k = lastPut x y calls 0) ∧
    (∀ (t : Driver) c x1 y1, ¬ (x1 = x ∧ y1 = y) →
      (st7789_fb_put cfg c x1 y1 t).framebuffer r k = t.framebuffer r k) ∧
    (∀ (t : Driver) c x1 y1, fb_cell cfg x1 y1 = none → st7789_fb_put cfg c x1 y1 t = t) ∧
    (∀ t : Driver, ∃ t', st7789_lcd_push_fb cfg fuel t = some t' ∧
      t'.framebuffer = t.framebuffer) := by
  have hrange := fb_cell_range cfg hW hH x y r k hcell
  refine ⟨?_, ?_, ?_, ?_⟩
  · exact runCalls_cell cfg hW hH fuel hfW hfH x y r k hcell calls s 0
      (hclear r k hrange.1 hrange.2)
  · intro t c x1 y1 hne
    exact fb_put_other cfg hW hH x y r k hcell c x1 y1 hne t
  · intro t c x1 y1 hnone
    simp [st7789_fb_put, hnone]
  · intro t
    exact ⟨_, push_fb_eq cfg hW hH fuel hfW hfH t, rfl⟩

theorem fb_holds_last_put_witness :
    fb_cell panelPortrait 1 2 = some (2, 1) ∧
    lastPut 1 2 sampleCalls 0 = 6 ∧
    (runCalls panelPortrait 5 sampleCalls blankDriver).map (fun s => s.framebuffer 2 1)
      = some 6 := by
  obtain ⟨s', hrun, hval⟩ := (fb_holds_last_put panelPortrait (by decide) (by decide) 5
    (by decide) (by decide) blankDriver (fun _ _ _ _ => rfl) sampleCalls 1 2 2 1 (by decide)).1
  refine ⟨by decide, by decide, ?_⟩
  rw [hrun, Option.map_some', hval]
  decide

/-! ## Lifecycle -/

/-- The bytes of a frame whose cells are all 0. -/
theorem frameBytes_zero (cfg : Config) (fb : Framebuffer)
    (hz : ∀ y x, y < cfg.height → x < cfg.width → fb y x = 0) :
    frameBytes cfg fb = List.replicate (cfg.width * cfg.height * 2) 0 := by
  rw [List.eq_replicate_iff]
  refine ⟨frameBytes_length cfg fb, ?_⟩
  intro b hb
  simp only [frameBytes, rowBytes, List.mem_flatMap, List.mem_range, pixelBytes] at hb
  obtain ⟨y, hy, x, hx, hb⟩ := hb
  rw [hz y x hy hx] at hb
  simpa using hb

/-- The state `st7789_lcd_init` returns, in closed form. -/
theorem lcd_init_eq (cfg : Config) (hW : cfg.width < 65536) (hH : cfg.height < 65536)
    (fuel : Nat) (hfW : cfg.width < fuel) (hfH : cfg.height < fuel) (s : Driver) :
    st7789_lcd_init cfg fuel s =
      some { framebuffer :=
               fun r k => if r < cfg.height ∧ k < cfg.width then 0 else s.framebuffer r k,
             trace := s.trace ++
               (bringUpTrace cfg ++ specInitTrace cfg (initEntries cfg)
                 ++ [.gpioPut cfg.pinBL true]
                 ++ specPushTrace cfg (List.replicate (cfg.width * cfg.height * 2) 0)) } := by
  have hinit : ∀ t : Driver, init_loop cfg (st7789_init_seq cfg) t =
      some { t with trace := t.trace ++ specInitTrace cfg (initEntries cfg) } := by
    intro t
    have h := init_loop_table cfg (initEntries cfg) [] t
    rw [List.append_nil, ← st7789_init_seq_eq cfg hW hH] at h
    exact h
  have hzero : frameBytes cfg
      (fun r k => if r < cfg.height ∧ k < cfg.width then 0 else s.framebuffer r k)
      = List.replicate (cfg.width * cfg.height * 2) 0 := by
    apply frameBytes_zero
    intro y x hy hx
    simp [hy, hx]
  simp only [st7789_lcd_init, hinit, Option.some_bind, fb_clear_eq cfg hW hH fuel hfW hfH,
    push_fb_eq cfg hW hH fuel hfW hfH, hzero, gpio_put, gpio_init, gpio_set_dir_out, emit,
    bringUpTrace, specPushTrace]
  simp


/-- A push leaves every line other than command-select and chip-select as it was. -/
theorem linesAfter_specPushTrace_other (cfg : Config) (l : Lines) (bytes : List Nat) (p : Nat)
    (h1 : p ≠ cfg.pinDC) (h2 : p ≠ cfg.pinCS) :
    linesAfter l (specPushTrace cfg bytes) p = l p := by
  simp only [specPushTrace, linesAfter_append, linesAfter_puts, linesAfter_cons,
    linesAfter_nil, applyEvent_sleepUs]
  rw [applyEvent_setLines_other cfg _ _ _ p h1 h2,
    linesAfter_specWriteCommand_other cfg l _ _ p h1 h2]

theorem putBytes_bringUpTrace (cfg : Config) : putBytes (bringUpTrace cfg) = [] := rfl

theorem putBytes_specInitTrace (cfg : Config) :
    putBytes (specInitTrace cfg (initEntries cfg)) =
      [0x01, 0x11, 0x3A, 0x55, 0x36, 0x00,
       0x2A, 0x00, 0x00, cfg.width >>> 8, cfg.width &&& 0xFF,
       0x2B, 0x00, 0x00, cfg.height >>> 8, cfg.height &&& 0xFF,
       0x21, 0x13, 0x29] := by
  simp [specInitTrace, initEntries, putBytes_append, specWriteCommand_putBytes, putBytes]

theorem putBytes_specPushTrace (cfg : Config) (bytes : List Nat) :
    putBytes (specPushTrace cfg bytes) = 0x2C :: bytes := by
  simp [specPushTrace, putBytes_append, specWriteCommand_putBytes, putBytes_map_put, putBytes,
    setLines]

/-- C11: for every prior state and line state, `st7789_lcd_init` returns (given a loop
budget above the panel dimensions, which fit the 16-bit loop counters) and performs, in
this order: the set-up ending with chip-select driven high and reset driven high, the init
loop over `st7789_init_seq`, the backlight line driven high, the framebuffer clear, one
push. On return every cell of the framebuffer is 0, the backlight line is high (its pin
being neither the command-select nor the chip-select pin), and the bytes put on the
channel end with the memory-write opcode 0x2C followed by `width * height * 2` bytes
0x00. -/
theorem lcd_init_sequence (cfg : Config) (hW : cfg.width < 65536) (hH : cfg.height < 65536)
    (fuel : Nat) (hfW : cfg.width < fuel) (hfH : cfg.height < fuel)
    (hBLDC : cfg.pinBL ≠ cfg.pinDC) (hBLCS : cfg.pinBL ≠ cfg.pinCS)
    (s : Driver) (l : Lines) :
    ∃ s1 s2 s3 : Driver,
      init_loop cfg (st7789_init_seq cfg)
          { s with trace := s.trace ++
            [ .pioAddProgram, .pioProgramInit cfg.pinDIN cfg.pinCLK,
              .gpioInit cfg.pinCS, .gpioInit cfg.pinDC, .gpioInit cfg.pinRST,
              .gpioInit cfg.pinBL,
              .gpioSetDirOut cfg.pinCS, .gpioSetDirOut cfg.pinDC, .gpioSetDirOut cfg.pinRST,
              .gpioSetDirOut cfg.pinBL,
              .gpioPut cfg.pinCS true, .gpioPut cfg.pinRST true ] } = some s1 ∧
      st7789_fb_clear cfg fuel (gpio_put cfg.pinBL true s1) = some s2 ∧
      st7789_lcd_push_fb cfg fuel s2 = some s3 ∧
      st7789_lcd_init cfg fuel s = some s3 ∧
      s3.trace = s.trace ++
        (bringUpTrace cfg ++ specInitTrace cfg (initEntries cfg)
          ++ [.gpioPut cfg.pinBL true]
          ++ specPushTrace cfg (List.replicate (cfg.width * cfg.height * 2) 0)) ∧
      (∀ y x, y < cfg.height → x < cfg.width → s3.framebuffer y x = 0) ∧
      linesAfter l (s3.trace.drop s.trace.length) cfg.pinBL = true ∧
      putBytes (s3.trace.drop s.trace.length) =
        [0x01, 0x11, 0x3A, 0x55, 0x36, 0x00,
         0x2A, 0x00, 0x00, cfg.width >>> 8, cfg.width &&& 0xFF,
         0x2B, 0x00, 0x00, cfg.height >>> 8, cfg.height &&& 0xFF,
         0x21, 0x13, 0x29]
        ++ 0x2C :: List.replicate (cfg.width * cfg.height * 2) 0 := by
  have hinit : ∀ t : Driver, init_loop cfg (st7789_init_seq cfg) t =
      some { t with trace := t.trace ++ specInitTrace cfg (initEntries cfg) } := by
    intro t
    have h := init_loop_table cfg (initEntries cfg) [] t
    rw [List.append_nil, ← st7789_init_seq_eq cfg hW hH] at h
    exact h
  have hzero : frameBytes cfg
      (fun r k => if r < cfg.height ∧ k < cfg.width then 0 else s.framebuffer r k)
      = List.replicate (cfg.width * cfg.height * 2) 0 := by
    apply frameBytes_zero
    intro y x hy hx
    simp [hy, hx]
  refine ⟨{ s with trace := s.trace ++ (bringUpTrace cfg ++ specInitTrace cfg (initEntries cfg)) },
    { framebuffer :=
        fun r k => if r < cfg.height ∧ k < cfg.width then 0 else s.framebuffer r k,
      trace := s.trace ++ (bringUpTrace cfg ++ specInitTrace cfg (initEntries cfg)
        ++ [.gpioPut cfg.pinBL true]) },
    { framebuffer :=
        fun r k => if r < cfg.height ∧ k < cfg.width then 0 else s.framebuffer r k,
      trace := s.trace ++ (bringUpTrace cfg ++ specInitTrace cfg (initEntries cfg)
        ++ [.gpioPut cfg.pinBL true]
        ++ specPushTrace cfg (List.replicate (cfg.width * cfg.height * 2) 0)) },
    ?_, ?_, ?_, lcd_init_eq cfg hW hH fuel hfW hfH s, rfl, ?_, ?_, ?_⟩
  · rw [hinit]
    simp [bringUpTrace]
  · rw [fb_clear_eq cfg hW hH fuel hfW hfH]
    simp [gpio_put, emit]
  · rw [push_fb_eq cfg hW hH fuel hfW hfH, hzero]
    simp [specPushTrace]
  · intro y x hy hx
    simp [hy, hx]
  · simp only [List.drop_left, linesAfter_append]
    rw [linesAfter_specPushTrace_other cfg _ _ _ hBLDC hBLCS]
    simp [linesAfter_cons, linesAfter_nil, applyEvent]
  · simp only [List.drop_left, putBytes_append, putBytes_bringUpTrace, putBytes_specInitTrace,
      putBytes_specPushTrace]
    simp [putBytes]

theorem lcd_init_sequence_witness :
    (st7789_lcd_init panelTiny 3 sampleDriver).map
        (fun s => (s.framebuffer 0 0, s.framebuffer 1 0, putBytes s.trace,
          linesAfter (fun _ => false) s.trace 5)) =
      some (0, 0,
        [0x01, 0x11, 0x3A, 0x55, 0x36, 0x00, 0x2A, 0x00, 0x00, 0x00, 0x01,
         0x2B, 0x00, 0x00, 0x00, 0x02, 0x21, 0x13, 0x29, 0x2C, 0x00, 0x00, 0x00, 0x00],
        true) := by
  obtain ⟨s1, s2, s3, _, _, _, hrun, _, hzero, hbl, hbytes⟩ :=
    lcd_init_sequence panelTiny (by decide) (by decide)
      3 (by decide) (by decide) (by decide) (by decide) sampleDriver (fun _ => false)
  have hbl1 : linesAfter (fun _ => false) s3.trace 5 = true := hbl
  have hbytes1 : putBytes s3.trace =
      [0x01, 0x11, 0x3A, 0x55, 0x36, 0x00, 0x2A, 0x00, 0x00, 0x00, 0x01,
       0x2B, 0x00, 0x00, 0x00, 0x02, 0x21, 0x13, 0x29, 0x2C, 0x00, 0x00, 0x00, 0x00] :=
    hbytes.trans (by decide)
  rw [hrun, Option.map_some', hzero 0 0 (by decide) (by decide),
    hzero 1 0 (by decide) (by decide), hbl1, hbytes1]

/-! ## The init loop as a walk over table indices -/

theorem put_each_isSome : ∀ (cmd : List Nat) (n : Nat) (s : Driver),
    (put_each cmd n s).isSome = decide (n ≤ cmd.length) := by
  intro cmd
  induction cmd with
  | nil =>
    intro n s
    cases n with
    | zero => simp [put_each]
    | succ n => simp [put_each]
  | cons b bs ih =>
    intro n s
    cases n with
    | zero => simp [put_each]
    | succ n => simp [put_each, ih]

theorem lcd_write_cmd_isSome (cfg : Config) (cmd : List Nat) (count : Nat) (hc : 1 ≤ count)
    (s : Driver) :
    (lcd_write_cmd cfg cmd count s).isSome = decide (count ≤ cmd.length) := by
  cases cmd with
  | nil =>
    have : ¬ count ≤ 0 := by omega
    simp [lcd_write_cmd, this]
  | cons opcode rest =>
    by_cases h2 : count ≥ 2
    · simp only [lcd_write_cmd, h2, if_true, Option.isSome_map', put_each_isSome,
        List.length_cons]
      have : (count - 1 ≤ rest.length) ↔ (count ≤ rest.length + 1) := by omega
      simp [this]
    · have h1 : count = 1 := by omega
      simp [lcd_write_cmd, h1]

/-- The index walk returns exactly when the loop on the byte list does: the walk's bound
check is the loop's reads staying inside the table. -/
theorem init_loop_isSome_eq_walk (cfg : Config) (table : List Nat) :
    ∀ (fuel i : Nat) (s : Driver), table.length - i < fuel →
      (init_loop cfg (table.drop i) s).isSome = (init_walk table fuel i).isSome := by
  intro fuel
  induction fuel with
  | zero => intro i s h; omega
  | succ n ih =>
    intro i s hfuel
    by_cases hi : i < table.length
    · have hdrop : table.drop i = table[i] :: table.drop (i + 1) :=
        List.drop_eq_getElem_cons hi
      have hget : table[i]? = some table[i] := List.getElem?_eq_getElem hi
      rw [hdrop, init_loop]
      simp only [init_walk, hget]
      by_cases hlen : table[i] = 0
      · simp [hlen]
      · have hd2 : (table[i] :: table.drop (i + 1)).drop 2 = table.drop (i + 2) := by
          rw [← hdrop, List.drop_drop]
        have hdn : (table[i] :: table.drop (i + 1)).drop (table[i] + 2)
            = table.drop (i + (table[i] + 2)) := by
          rw [← hdrop, List.drop_drop]
        have hg1 : (table[i] :: table.drop (i + 1))[1]? = table[i + 1]? := by
          rw [← hdrop, List.getElem?_drop]
        simp only [hlen, if_false, hd2, hdn, hg1]
        have hsome := lcd_write_cmd_isSome cfg (table.drop (i + 2)) table[i] (by omega) s
        rw [List.length_drop] at hsome
        by_cases hfit : i + 2 + (table[i] - 1) < table.length
        · have hle : table[i] ≤ table.length - (i + 2) := by omega
          rw [decide_eq_true hle] at hsome
          obtain ⟨s1, hs1⟩ := Option.isSome_iff_exists.1 hsome
          have hg2 : table[i + 1]? = some table[i + 1] :=
            List.getElem?_eq_getElem (by omega)
          simp only [hs1, hg2, hfit, if_true, Option.isSome_map']
          exact ih _ _ (by omega)
        · have hle : ¬ table[i] ≤ table.length - (i + 2) := by omega
          rw [decide_eq_false hle] at hsome
          have hnone : lcd_write_cmd cfg (table.drop (i + 2)) table[i] s = none := by
            cases h : lcd_write_cmd cfg (table.drop (i + 2)) table[i] s with
            | none => rfl
            | some _ => rw [h] at hsome; simp at hsome
          simp [hnone, hfit]
    · have hdrop : table.drop i = [] := List.drop_eq_nil_of_le (by omega)
      have hget : table[i]? = none := List.getElem?_eq_none (by omega)
      rw [hdrop, init_loop]
      simp [init_walk, hget]


/-- The loop on the byte list is the index walk, turn for turn: it returns exactly when
the walk does, and the accesses it appends are those of the walk's turns, each read from
the table at the turn's indices. -/
theorem init_loop_eq_walk (cfg : Config) (table : List Nat) :
    ∀ (fuel i : Nat) (s : Driver), table.length - i < fuel →
      init_loop cfg (table.drop i) s =
        (init_walk table fuel i).map fun turns =>
          { s with trace := s.trace ++ turns.flatMap (turnTrace cfg table) } := by
  intro fuel
  induction fuel with
  | zero => intro i s h; omega
  | succ n ih =>
    intro i s hfuel
    by_cases hi : i < table.length
    · have hdrop : table.drop i = table[i] :: table.drop (i + 1) :=
        List.drop_eq_getElem_cons hi
      have hget : table[i]? = some table[i] := List.getElem?_eq_getElem hi
      have hgetD : table[i]?.getD 0 = table[i] := by
        rw [hget]
        rfl
      rw [hdrop, init_loop]
      simp only [init_walk, hget]
      by_cases hlen : table[i] = 0
      · simp [hlen, turnTrace, hget]
      · have hd2 : (table[i] :: table.drop (i + 1)).drop 2 = table.drop (i + 2) := by
          rw [← hdrop, List.drop_drop]
        have hdn : (table[i] :: table.drop (i + 1)).drop (table[i] + 2)
            = table.drop (i + (table[i] + 2)) := by
          rw [← hdrop, List.drop_drop]
        have hg1 : (table[i] :: table.drop (i + 1))[1]? = table[i + 1]? := by
          rw [← hdrop, List.getElem?_drop]
        simp only [hlen, if_false, hd2, hdn, hg1]
        by_cases hfit : i + 2 + (table[i] - 1) < table.length
        · have hi2 : i + 2 < table.length := by omega
          have hop : table.drop (i + 2) = table[i + 2] ::
              ((table.drop (i + 3)).take (table[i] - 1)
                ++ (table.drop (i + 3)).drop (table[i] - 1)) := by
            rw [List.take_append_drop]
            exact List.drop_eq_getElem_cons hi2
          have hplen : ((table.drop (i + 3)).take (table[i] - 1)).length = table[i] - 1 := by
            rw [List.length_take, List.length_drop]
            omega
          have hcount : table[i] = 1 + ((table.drop (i + 3)).take (table[i] - 1)).length := by
            rw [hplen]
            omega
          have hwrite : lcd_write_cmd cfg (table.drop (i + 2)) table[i] s =
              some { s with trace := s.trace ++ (specWriteCommand cfg table[i + 2]
                ((table.drop (i + 3)).take (table[i] - 1))) } := by
            have key : ∀ count, count = 1 + ((table.drop (i + 3)).take (table[i] - 1)).length →
                lcd_write_cmd cfg (table[i + 2] ::
                  ((table.drop (i + 3)).take (table[i] - 1)
                    ++ (table.drop (i + 3)).drop (table[i] - 1))) count s =
                some { s with trace := s.trace ++ (specWriteCommand cfg table[i + 2]
                  ((table.drop (i + 3)).take (table[i] - 1))) } := by
              intro count hc
              rw [hc]
              exact lcd_write_cmd_eq cfg _ _ _ s
            rw [hop]
            exact key _ hcount
          have hg2 : table[i + 1]? = some table[i + 1] :=
            List.getElem?_eq_getElem (by omega)
          have hgetD1 : table[i + 1]?.getD 0 = table[i + 1] := by
            rw [hg2]
            rfl
          have hgetD2 : table[i + 2]?.getD 0 = table[i + 2] := by
            rw [List.getElem?_eq_getElem hi2]
            rfl
          have hsub : i + 2 + (table[i] - 1) - (i + 2) = table[i] - 1 := by omega
          simp only [hwrite, hg2, hfit, if_true]
          rw [ih _ _ (by omega)]
          cases init_walk table n (i + (table[i] + 2)) with
          | none => rfl
          | some turns =>
            simp [turnTrace, hgetD, hgetD1, hgetD2, hlen, hsub, sleep_ms, emit]
        · have hsome := lcd_write_cmd_isSome cfg (table.drop (i + 2)) table[i] (by omega) s
          rw [List.length_drop] at hsome
          have hle : ¬ table[i] ≤ table.length - (i + 2) := by omega
          rw [decide_eq_false hle] at hsome
          have hnone : lcd_write_cmd cfg (table.drop (i + 2)) table[i] s = none := by
            cases h : lcd_write_cmd cfg (table.drop (i + 2)) table[i] s with
            | none => rfl
            | some _ => rw [h] at hsome; simp at hsome
          simp [hnone, hfit]
    · have hdrop : table.drop i = [] := List.drop_eq_nil_of_le (by omega)
      have hget : table[i]? = none := List.getElem?_eq_none (by omega)
      rw [hdrop, init_loop]
      simp [init_walk, hget]

/-- The loop on a well-formed table with nothing behind it. -/
theorem init_loop_tableBytes (cfg : Config) (es : List InitEntry) (s : Driver) :
    init_loop cfg (tableBytes es) s =
      some { s with trace := s.trace ++ specInitTrace cfg es } := by
  have h := init_loop_table cfg es [] s
  rwa [List.append_nil] at h

/-- For every width and height, the built-in table is the well-formed table of these nine
entries, the dimension bytes as the `uint8_t` array holds them. -/
theorem st7789_init_seq_entries (cfg : Config) :
    st7789_init_seq cfg = tableBytes
      [ { delay := 20, opcode := 0x01, payload := [] },
        { delay := 10, opcode := 0x11, payload := [] },
        { delay := 2, opcode := 0x3A, payload := [0x55] },
        { delay := 0, opcode := 0x36, payload := [0x00] },
        { delay := 0, opcode := 0x2A,
          payload := [0x00, 0x00, toU8 (cfg.width >>> 8), toU8 (cfg.width &&& 0xFF)] },
        { delay := 0, opcode := 0x2B,
          payload := [0x00, 0x00, toU8 (cfg.height >>> 8), toU8 (cfg.height &&& 0xFF)] },
        { delay := 2, opcode := 0x21, payload := [] },
        { delay := 2, opcode := 0x13, payload := [] },
        { delay := 2, opcode := 0x29, payload := [] } ] := rfl

/-- For every width and height and every state, the init loop on the built-in table
returns with the traces of its nine commands, each followed by its sleep. -/
theorem init_loop_builtin_trace (cfg : Config) (s : Driver) :
    init_loop cfg (st7789_init_seq cfg) s =
      some { s with trace := s.trace ++
        (specWriteCommand cfg 0x01 [] ++ [.sleepMs 100]
          ++ (specWriteCommand cfg 0x11 [] ++ [.sleepMs 50])
          ++ (specWriteCommand cfg 0x3A [0x55] ++ [.sleepMs 10])
          ++ (specWriteCommand cfg 0x36 [0x00] ++ [.sleepMs 0])
          ++ (specWriteCommand cfg 0x2A
                [0x00, 0x00, toU8 (cfg.width >>> 8), toU8 (cfg.width &&& 0xFF)]
                ++ [.sleepMs 0])
          ++ (specWriteCommand cfg 0x2B
                [0x00, 0x00, toU8 (cfg.height >>> 8), toU8 (cfg.height &&& 0xFF)]
                ++ [.sleepMs 0])
          ++ (specWriteCommand cfg 0x21 [] ++ [.sleepMs 10])
          ++ (specWriteCommand cfg 0x13 [] ++ [.sleepMs 10])
          ++ (specWriteCommand cfg 0x29 [] ++ [.sleepMs 10])) } := by
  rw [st7789_init_seq_entries, init_loop_tableBytes]
  simp [specInitTrace]

/-- C17: for every panel width and height, the init loop over the built-in table
`st7789_init_seq`, which has 38 bytes, terminates: from index 0, advancing by
`length + 2`, it reads a length byte at exactly the indices 0, 3, 6, 10, 14, 21, 28, 31, 34
and the sentinel 0 at index 37; the highest index read in each turn is 2, 5, 9, 13, 20,
27, 30, 33, 36, 37, so no index 38 or above is read. The width and height bytes, at
indices 19, 20, 26, 27, are never read as a length byte. This is the loop of
`st7789_lcd_init` itself: from every index of the table it returns what the index walk
gives, turn for turn, and from index 0 it returns, for every state, having made exactly
the accesses of the nine turns at those indices, which are the nine commands of the table
with their sleeps, and none for the sentinel. -/
theorem init_walk_builtin (cfg : Config) (s : Driver) :
    (st7789_init_seq cfg).length = 38 ∧
    (∀ k, init_walk (st7789_init_seq cfg) (k + 10) 0 =
      some [(0, 2), (3, 5), (6, 9), (10, 13), (14, 20), (21, 27), (28, 30), (31, 33),
            (34, 36), (37, 37)]) ∧
    (st7789_init_seq cfg)[37]? = some 0 ∧
    ((st7789_init_seq cfg)[19]? = some (toU8 (cfg.width >>> 8)) ∧
      (st7789_init_seq cfg)[20]? = some (toU8 (cfg.width &&& 0xFF)) ∧
      (st7789_init_seq cfg)[26]? = some (toU8 (cfg.height >>> 8)) ∧
      (st7789_init_seq cfg)[27]? = some (toU8 (cfg.height &&& 0xFF))) ∧
    (∀ i ∈ [19, 20, 26, 27], i ∉ [0, 3, 6, 10, 14, 21, 28, 31, 34, 37]) ∧
    (init_loop cfg (st7789_init_seq cfg) s).isSome = true ∧
    (∀ (fuel i : Nat) (t : Driver), 38 - i < fuel →
      init_loop cfg ((st7789_init_seq cfg).drop i) t =
        (init_walk (st7789_init_seq cfg) fuel i).map fun turns =>
          { t with trace := t.trace ++ turns.flatMap (turnTrace cfg (st7789_init_seq cfg)) }) ∧
    init_loop cfg (st7789_init_seq cfg) s =
      some { s with trace := s.trace ++
        [(0, 2), (3, 5), (6, 9), (10, 13), (14, 20), (21, 27), (28, 30), (31, 33),
         (34, 36), (37, 37)].flatMap (turnTrace cfg (st7789_init_seq cfg)) } ∧
    (turnTrace cfg (st7789_init_seq cfg) (0, 2)
        = specWriteCommand cfg 0x01 [] ++ [.sleepMs 100] ∧
      turnTrace cfg (st7789_init_seq cfg) (3, 5)
        = specWriteCommand cfg 0x11 [] ++ [.sleepMs 50] ∧
      turnTrace cfg (st7789_init_seq cfg) (6, 9)
        = specWriteCommand cfg 0x3A [0x55] ++ [.sleepMs 10] ∧
      turnTrace cfg (st7789_init_seq cfg) (10, 13)
        = specWriteCommand cfg 0x36 [0x00] ++ [.sleepMs 0] ∧
      turnTrace cfg (st7789_init_seq cfg) (14, 20)
        = specWriteCommand cfg 0x2A
            [0x00, 0x00, toU8 (cfg.width >>> 8), toU8 (cfg.width &&& 0xFF)] ++ [.sleepMs 0] ∧
      turnTrace cfg (st7789_init_seq cfg) (21, 27)
        = specWriteCommand cfg 0x2B
            [0x00, 0x00, toU8 (cfg.height >>> 8), toU8 (cfg.height &&& 0xFF)]
            ++ [.sleepMs 0] ∧
      turnTrace cfg (st7789_init_seq cfg) (28, 30)
        = specWriteCommand cfg 0x21 [] ++ [.sleepMs 10] ∧
      turnTrace cfg (st7789_init_seq cfg) (31, 33)
        = specWriteCommand cfg 0x13 [] ++ [.sleepMs 10] ∧
      turnTrace cfg (st7789_init_seq cfg) (34, 36)
        = specWriteCommand cfg 0x29 [] ++ [.sleepMs 10] ∧
      turnTrace cfg (st7789_init_seq cfg) (37, 37) = []) := by
  have hwalk : ∀ k, init_walk (st7789_init_seq cfg) (k + 10) 0 =
      some [(0, 2), (3, 5), (6, 9), (10, 13), (14, 20), (21, 27), (28, 30), (31, 33),
            (34, 36), (37, 37)] := by
    intro k
    simp [init_walk, st7789_init_seq]
  have hlen : (st7789_init_seq cfg).length = 38 := rfl
  have hbridge : ∀ (fuel i : Nat) (t : Driver), 38 - i < fuel →
      init_loop cfg ((st7789_init_seq cfg).drop i) t =
        (init_walk (st7789_init_seq cfg) fuel i).map fun turns =>
          { t with trace := t.trace ++ turns.flatMap (turnTrace cfg (st7789_init_seq cfg)) } := by
    intro fuel i t hf
    exact init_loop_eq_walk cfg (st7789_init_seq cfg) fuel i t (by rw [hlen]; exact hf)
  have hrun : init_loop cfg (st7789_init_seq cfg) s =
      some { s with trace := s.trace ++
        [(0, 2), (3, 5), (6, 9), (10, 13), (14, 20), (21, 27), (28, 30), (31, 33),
         (34, 36), (37, 37)].flatMap (turnTrace cfg (st7789_init_seq cfg)) } := by
    have h := hbridge 39 0 s (by decide)
    rw [List.drop_zero, hwalk 29] at h
    exact h
  refine ⟨rfl, hwalk, rfl, ⟨rfl, rfl, rfl, rfl⟩, by decide, ?_, hbridge, hrun,
    ⟨?_, ?_, ?_, ?_, ?_, ?_, ?_, ?_, ?_, ?_⟩⟩
  · rw [hrun]
    rfl
  all_goals simp [turnTrace, st7789_init_seq]

/-- The walk on the table of the 240 x 320 panel, whose width and height bytes are
0x00, 0xF0 and 0x01, 0x40. -/
theorem init_walk_240x320 :
    st7789_init_seq panel240x320 =
      [1, 20, 0x01, 1, 10, 0x11, 2, 2, 0x3A, 0x55, 2, 0, 0x36, 0x00,
       5, 0, 0x2A, 0x00, 0x00, 0x00, 0xF0, 5, 0, 0x2B, 0x00, 0x00, 0x01, 0x40,
       1, 2, 0x21, 1, 2, 0x13, 1, 2, 0x29, 0] ∧
    (init_walk (st7789_init_seq panel240x320) 10 0).map (fun turns => turns.map Prod.fst) =
      some [0, 3, 6, 10, 14, 21, 28, 31, 34, 37] ∧
    init_walk (st7789_init_seq panel240x320) 9 0 = none := by
  decide

/-- The accesses of the column-window turn on the table of the 240 x 320 panel (length
byte at index 14, highest index read 20), and of the sentinel turn. -/
theorem turnTrace_240x320 :
    turnTrace panel240x320 (st7789_init_seq panel240x320) (14, 20) =
      [.waitIdle, .sleepUs 1, .gpioPutMasked 12 0, .sleepUs 1, .put 0x2A,
       .waitIdle, .sleepUs 1, .gpioPutMasked 12 8, .sleepUs 1,
       .put 0x00, .put 0x00, .put 0x00, .put 0xF0,
       .waitIdle, .sleepUs 1, .gpioPutMasked 12 12, .sleepUs 1, .sleepMs 0] ∧
    turnTrace panel240x320 (st7789_init_seq panel240x320) (37, 37) = [] := by
  decide

/-! ## Delays of the built-in table -/

/-- C15 as stated fails, shown at a 240 x 320 panel: the last three entries of
`st7789_init_seq` are `1, 2, 0x21`, `1, 2, 0x13`, `1, 2, 0x29`, each with a delay byte of
2, and the init loop ends with the display-on command 0x29 followed by `sleep_ms(10)`; its
last access is not `sleep_ms(500)`. -/
theorem init_seq_display_on_delay :
    (st7789_init_seq panel240x320).drop 28 = [1, 2, 0x21, 1, 2, 0x13, 1, 2, 0x29, 0] ∧
    (init_loop panel240x320 (st7789_init_seq panel240x320) sampleDriver).map
        (fun s => s.trace.drop (s.trace.length - 30)) =
      some [.waitIdle, .sleepUs 1, .gpioPutMasked 12 0, .sleepUs 1, .put 0x21,
            .waitIdle, .sleepUs 1, .gpioPutMasked 12 12, .sleepUs 1, .sleepMs 10,
            .waitIdle, .sleepUs 1, .gpioPutMasked 12 0, .sleepUs 1, .put 0x13,
            .waitIdle, .sleepUs 1, .gpioPutMasked 12 12, .sleepUs 1, .sleepMs 10,
            .waitIdle, .sleepUs 1, .gpioPutMasked 12 0, .sleepUs 1, .put 0x29,
            .waitIdle, .sleepUs 1, .gpioPutMasked 12 12, .sleepUs 1, .sleepMs 10] ∧
    (init_loop panel240x320 (st7789_init_seq panel240x320) sampleDriver).map
        (fun s => s.trace.getLast?) = some (some (.sleepMs 10)) ∧
    Event.sleepMs 10 ≠ Event.sleepMs 500 ∧
    (init_loop panel240x320 (st7789_init_seq panel240x320) sampleDriver).map
        (fun s => s.trace.getLast?) ≠ some (some (.sleepMs 500)) := by
  have h := init_loop_table panel240x320 (initEntries panel240x320) [] sampleDriver
  rw [List.append_nil,
    ← st7789_init_seq_eq panel240x320 (by decide) (by decide)] at h
  rw [h]
  decide

/-- C15 (amended): for every panel width and height and every state, the init loop over
`st7789_init_seq` returns, and after the inversion-on (0x21) and the normal-display-on
(0x13) commands and after the display-on command (0x29), the last entry of the table, it
waits 10 ms each: the delay byte of each of the three entries is 2, in units of 5 ms.
Nothing follows the wait after 0x29. -/
theorem init_loop_final_delays (cfg : Config) (s : Driver) :
    ((st7789_init_seq cfg).drop 28 = [1, 2, 0x21, 1, 2, 0x13, 1, 2, 0x29, 0] ∧ 2 * 5 = 10) ∧
    init_loop cfg (st7789_init_seq cfg) s =
      some { s with trace := s.trace ++
        ((specWriteCommand cfg 0x01 [] ++ [.sleepMs 100]
            ++ (specWriteCommand cfg 0x11 [] ++ [.sleepMs 50])
            ++ (specWriteCommand cfg 0x3A [0x55] ++ [.sleepMs 10])
            ++ (specWriteCommand cfg 0x36 [0x00] ++ [.sleepMs 0])
            ++ (specWriteCommand cfg 0x2A
                  [0x00, 0x00, toU8 (cfg.width >>> 8), toU8 (cfg.width &&& 0xFF)]
                  ++ [.sleepMs 0])
            ++ (specWriteCommand cfg 0x2B
                  [0x00, 0x00, toU8 (cfg.height >>> 8), toU8 (cfg.height &&& 0xFF)]
                  ++ [.sleepMs 0]))
          ++ (specWriteCommand cfg 0x21 [] ++ [.sleepMs 10]
            ++ (specWriteCommand cfg 0x13 [] ++ [.sleepMs 10])
            ++ (specWriteCommand cfg 0x29 [] ++ [.sleepMs 10]))) } ∧
    (init_loop cfg (st7789_init_seq cfg) s).map (fun s' => s'.trace.getLast?)
      = some (some (.sleepMs 10)) := by
  have hrun := init_loop_builtin_trace cfg s
  refine ⟨⟨rfl, rfl⟩, ?_, ?_⟩
  · rw [hrun]
    simp
  · rw [hrun]
    simp only [Option.map_some', ← List.append_assoc, List.getLast?_concat]

/-- For dimensions that fit 16 bits, the init loop sleeps, in this order, 100, 50, 10, 0,
0, 0, 10, 10 and 10 ms: the last of them, after the display-on command, is 10 ms. -/
theorem init_loop_sleeps (cfg : Config) (hW : cfg.width < 65536) (hH : cfg.height < 65536)
    (s : Driver) :
    ∃ s', init_loop cfg (st7789_init_seq cfg) s = some s' ∧
      (s'.trace.drop s.trace.length).filterMap
          (fun e => match e with | .sleepMs ms => some ms | _ => none)
        = [100, 50, 10, 0, 0, 0, 10, 10, 10] := by
  have h := init_loop_table cfg (initEntries cfg) [] s
  rw [List.append_nil, ← st7789_init_seq_eq cfg hW hH] at h
  refine ⟨_, h, ?_⟩
  simp [specInitTrace, initEntries, specWriteCommand, setLines, List.filterMap_append,
    List.filterMap_cons]

end ST7789
